import Mathlib

/-!
Verification of the McDonalds Malaysia outlet scraping and geocoding pipeline.

The Python source is embedded shallowly: strings are `List Char` (wrapped in
`String` at the interface), floats are `ℚ` (the coordinate and confidence
values in play are decimal literals, which rationals represent exactly),
dictionaries are functions `String → Option Val`, and the regular-expression
substitutions and searches of the source are realised as specialised
scanners with the leftmost / greedy semantics of the Python `re` module.
-/

namespace MCD


/-! ### Character classes (ASCII fragment of Python `re` classes) -/

/-- Python regex whitespace class member test. -/
def isWsC (c : Char) : Bool :=
  c = ' ' || c = '\t' || c = '\n' || c = '\r' || c = '\x0b' || c = '\x0c'

def isDigitC (c : Char) : Bool := '0' ≤ c && c ≤ '9'

def isAlphaC (c : Char) : Bool :=
  ('a' ≤ c && c ≤ 'z') || ('A' ≤ c && c ≤ 'Z')

/-- Python regex word-character class member test. -/
def isWordC (c : Char) : Bool := isAlphaC c || isDigitC c || c = '_'

def isUpperC (c : Char) : Bool := 'A' ≤ c && c ≤ 'Z'

def lowerC (c : Char) : Char :=
  if isUpperC c then Char.ofNat (c.toNat + 32) else c

def lowerL (l : List Char) : List Char := l.map lowerC

/-- Apostrophe character, used in the brand token. -/
def apos : Char := Char.ofNat 39

/-! ### Basic scanning primitives -/

/-- `startsW pat s`: the list `s` begins with `pat` (case sensitive). -/
def startsW : List Char → List Char → Bool
  | [], _ => true
  | _ :: _, [] => false
  | p :: ps, c :: cs => p = c && startsW ps cs

/-- `startsWCI pat s`: `s` begins with `pat`, ASCII-case-insensitively. -/
def startsWCI : List Char → List Char → Bool
  | [], _ => true
  | _ :: _, [] => false
  | p :: ps, c :: cs => lowerC p = lowerC c && startsWCI ps cs

/-- `containsSub s pat`: `pat` occurs as a contiguous substring of `s`. -/
def containsSub : List Char → List Char → Bool
  | [], pat => pat.isEmpty
  | s@(_ :: cs), pat => startsW pat s || containsSub cs pat

/-- Case-insensitive substring test. -/
def containsSubCI (s pat : List Char) : Bool := containsSub (lowerL s) pat

/-- Non-overlapping occurrence count, mirroring Python `str.count`. -/
def countOccGo (pat : List Char) : Nat → List Char → Nat
  | 0, _ => 0
  | _ + 1, [] => 0
  | n + 1, c :: cs =>
    if startsW pat (c :: cs) then
      1 + countOccGo pat n (List.drop (pat.length - 1) cs)
    else
      countOccGo pat n cs

def countOcc (s pat : List Char) : Nat := countOccGo pat s.length s

/-- Drop trailing characters satisfying `p`. -/
def dropTrail (p : Char → Bool) (l : List Char) : List Char :=
  ((l.reverse).dropWhile p).reverse

/-- Python `str.strip()` (whitespace both ends). -/
def stripWs (l : List Char) : List Char :=
  dropTrail isWsC (l.dropWhile isWsC)

/-! ### Number parsing for the regex group `[+-]?\d+\.?\d*`

`matchNum s` returns the maximal-munch match of the group at the head of
`s` together with the rest of the input.  In every pattern of the source
the group is followed by a delimiter that is neither a digit nor a dot,
so maximal munch coincides with the backtracking semantics of `re`. -/

def matchNum (s : List Char) : Option (List Char × List Char) :=
  let signed : List Char × List Char :=
    match s with
    | c :: cs => if c = '+' || c = '-' then ([c], cs) else ([], s)
    | [] => ([], s)
  let sgn := signed.1
  let s1 := signed.2
  let ds := s1.takeWhile isDigitC
  if ds.isEmpty then none
  else
    let s2 := s1.drop ds.length
    match s2 with
    | '.' :: s3 =>
      let fs := s3.takeWhile isDigitC
      some (sgn ++ ds ++ '.' :: fs, s3.drop fs.length)
    | _ => some (sgn ++ ds, s2)

def digitsVal (l : List Char) : Nat :=
  l.foldl (fun a c => a * 10 + (c.toNat - 48)) 0

/-- Value of a matched `[+-]?\d+\.?\d*` group, as Python `float` reads it
(exact, since all values in play are short decimal literals).  Rational
values are built with `mkRat` and integer/natural arithmetic throughout
this development so that every definition evaluates by kernel reduction. -/
def numVal (l : List Char) : ℚ :=
  let core : List Char × Bool :=
    match l with
    | '-' :: t => (t, true)
    | '+' :: t => (t, false)
    | _ => (l, false)
  let t := core.1
  let ip := t.takeWhile isDigitC
  let rest := t.drop ip.length
  let fp :=
    match rest with
    | '.' :: u => u.takeWhile isDigitC
    | _ => ([] : List Char)
  let m : Nat := digitsVal ip * 10 ^ fp.length + digitsVal fp
  mkRat (if core.2 then -(m : Int) else (m : Int)) (10 ^ fp.length)

/-! ### Generic scanning (Python `re.search`) -/

/-- Try `p` at every start position, left to right. -/
def scanP (p : List Char → Option α) : List Char → Option α
  | [] => none
  | c :: cs =>
    match p (c :: cs) with
    | some x => some x
    | none => scanP p cs

/-- Match a literal, case sensitive; returns rest. -/
def litP (pat : List Char) (s : List Char) : Option (List Char) :=
  if startsW pat s then some (s.drop pat.length) else none

/-- Match a literal, case insensitive; returns rest. -/
def litCIP (pat : List Char) (s : List Char) : Option (List Char) :=
  if startsWCI pat s then some (s.drop pat.length) else none

/-! ### `_extract_coordinates_from_waze_link` (mcdonald_geocoding.py 336-413) -/

/-- One `<pre> num <mid> num` URL pattern; `ci` selects case-insensitive
literal matching (the `re.IGNORECASE` flag of the source pattern). -/
def pairPat (ci : Bool) (pre mid : List Char) (s : List Char) : Option (ℚ × ℚ) :=
  match (if ci then litCIP pre s else litP pre s) with
  | none => none
  | some r0 =>
    match matchNum r0 with
    | none => none
    | some (n1, r1) =>
      match (if ci then litCIP mid r1 else litP mid r1) with
      | none => none
      | some r2 =>
        match matchNum r2 with
        | none => none
        | some (n2, _) => some (numVal n1, numVal n2)

/-- Bounds check of the source: coordinates within Malaysia. -/
def inMYBounds (la lo : ℚ) : Prop := 1 ≤ la ∧ la ≤ 7 ∧ 99 ≤ lo ∧ lo ≤ 119

instance (la lo : ℚ) : Decidable (inMYBounds la lo) := by
  unfold inMYBounds; infer_instance

/-- In the first two branches of the source, a parsed pair is returned when
within Malaysia bounds and otherwise `(None, None)` is returned at once. -/
def gateMY (r : ℚ × ℚ) : Option ℚ × Option ℚ :=
  if inMYBounds r.1 r.2 then (some r.1, some r.2) else (none, none)

/-- The alternative-pattern loop (source lines 384-410): a pattern that
matches but fails the bounds check falls through to the next pattern. -/
def altLoop (s : List Char) : List (List Char → Option (ℚ × ℚ)) → Option ℚ × Option ℚ
  | [] => (none, none)
  | p :: ps =>
    match scanP p s with
    | some r => if inMYBounds r.1 r.2 then (some r.1, some r.2) else altLoop s ps
    | none => altLoop s ps

def wazeAltPatterns : List (List Char → Option (ℚ × ℚ)) :=
  [ pairPat true ("navigate?lat=".toList) ("&lon=".toList)
  , pairPat true ("lat=".toList) ("&lon=".toList)
  , pairPat true ("q=".toList) (",".toList)
  , pairPat true ("at=".toList) (",".toList)
  , pairPat true ("to=ll.".toList) (",".toList)
  , pairPat true ("ll.".toList) ("%2c".toList)
  , pairPat true ("ll.".toList) (",".toList) ]

/-- `McDonaldGeocoder._extract_coordinates_from_waze_link`. -/
def extractWazeL (s : List Char) : Option ℚ × Option ℚ :=
  if s.isEmpty then (none, none)
  else
    match scanP (pairPat true ("to=ll.".toList) ("%2c".toList)) s with
    | some r => gateMY r
    | none =>
      match scanP (pairPat false ("ll=".toList) (",".toList)) s with
      | some r => gateMY r
      | none => altLoop s wazeAltPatterns

def extractWaze (s : String) : Option ℚ × Option ℚ := extractWazeL s.toList

/-! ### Computable rational arithmetic

The ambient `Rat` operations are `@[irreducible]`, so the embedding builds
every rational value with `mkRat` over integer arithmetic; the bridge
lemmas below connect these to the ordinary field operations for symbolic
reasoning. -/

def qadd (a b : ℚ) : ℚ := mkRat (a.num * b.den + b.num * a.den) (a.den * b.den)

def qsub (a b : ℚ) : ℚ := mkRat (a.num * b.den - b.num * a.den) (a.den * b.den)

def qmul (a b : ℚ) : ℚ := mkRat (a.num * b.num) (a.den * b.den)

def qmax (a b : ℚ) : ℚ := if a ≤ b then b else a

/-- Banker's rounding (Python `round`) to an integer. -/
def roundHalfEven (q : ℚ) : ℤ :=
  let f : ℤ := Int.fdiv q.num q.den
  let twice : ℤ := 2 * (q.num - f * q.den)
  if twice < (q.den : ℤ) then f
  else if (q.den : ℤ) < twice then f + 1
  else if f % 2 = 0 then f else f + 1

/-- Python `round(x, 2)` on the exact decimal values of this pipeline. -/
def roundTo2 (q : ℚ) : ℚ := mkRat (roundHalfEven (mkRat (q.num * 100) q.den)) 100

/-! ### `KLCoordinateValidator` (backend validators.py) -/

structure GeoBounds where
  minLatitude : ℚ
  maxLatitude : ℚ
  minLongitude : ℚ
  maxLongitude : ℚ

/-- `KL_BOUNDS` of the source. -/
def klBounds : GeoBounds :=
  { minLatitude := mkRat 29 10, maxLatitude := mkRat 34 10
  , minLongitude := mkRat 1015 10, maxLongitude := mkRat 1019 10 }

/-- `KL_CENTRAL_BOUNDS` of the source. -/
def klCentralBounds : GeoBounds :=
  { minLatitude := mkRat 3 1, maxLatitude := mkRat 325 100
  , minLongitude := mkRat 1016 10, maxLongitude := mkRat 1018 10 }

/-- `KLCoordinateValidator._is_within_bounds`. -/
def isWithinBounds (lat lng : ℚ) (b : GeoBounds) : Bool :=
  decide (b.minLatitude ≤ lat ∧ lat ≤ b.maxLatitude ∧
          b.minLongitude ≤ lng ∧ lng ≤ b.maxLongitude)

/-- `KLCoordinateValidator._is_in_water`: the source inspects a Klang River
box but always falls through and returns `False`. -/
def isInWater (_lat _lng : ℚ) : Bool := false

/-- `KLCoordinateValidator._is_too_precise`: more than 6 decimal digits in
the printed value.  The floats of this pipeline are decimal values, for
which having at most 6 decimal digits is exactly divisibility of the
reduced denominator into `10^6`. -/
def isTooPrecise (lat lng : ℚ) : Bool :=
  !(decide (lat.den ∣ 10 ^ 6)) || !(decide (lng.den ∣ 10 ^ 6))

/-- Result dictionary of `validate_coordinates`; fields absent in a given
branch of the source are `none`.  The interpolated coordinate text inside
the `reason` messages is abstracted to the fixed message prefix. -/
structure Validation where
  isValid : Bool
  confidence : ℚ
  locationType : String
  reason : Option String := none
  validationIssues : Option (List String) := none
  boundsCheck : Option (Bool × Bool) := none

/-- `KLCoordinateValidator.validate_coordinates` (source lines 33-96). -/
def validateCoordinates (lat lng : Option ℚ) : Validation :=
  match lat, lng with
  | some la, some lo =>
    let withinKL := isWithinBounds la lo klBounds
    let withinCentral := isWithinBounds la lo klCentralBounds
    if !withinKL then
      { isValid := false, confidence := 0, locationType := "outside_kl"
      , reason := some "Coordinates are outside Kuala Lumpur bounds" }
    else
      let lt := if withinCentral then "central_kl" else "greater_kl"
      let c0 : ℚ := if withinCentral then mkRat 9 10 else mkRat 7 10
      let issues1 : List String :=
        if isInWater la lo then ["Coordinates may be in water"] else []
      let c1 := if isInWater la lo then qsub c0 (mkRat 2 10) else c0
      let issues2 := issues1 ++
        (if isTooPrecise la lo then ["Coordinates suspiciously precise"] else [])
      let c2 := if isTooPrecise la lo then qsub c1 (mkRat 1 10) else c1
      let c3 := qmax c2 (mkRat 1 10)
      { isValid := true, confidence := roundTo2 c3, locationType := lt
      , validationIssues := some issues2
      , boundsCheck := some (withinKL, withinCentral) }
  | _, _ =>
    { isValid := false, confidence := 0, locationType := "invalid"
    , reason := some "Missing coordinates" }

/-- Result returned by the geocoding client (`NominatimService`); the
`raw_data` provider payload is not inspected by the embedded code paths
and is omitted. -/
structure GeoResult where
  status : String
  latitude : Option ℚ := none
  longitude : Option ℚ := none
  formattedAddress : Option String := none
  confidence : ℚ := 0
deriving DecidableEq

structure ValidatedResult where
  base : GeoResult
  validation : Validation
  combinedConfidence : Option ℚ := none

/-- `KLCoordinateValidator.validate_geocoding_result` (lines 137-174). -/
def validateGeocodingResult (r : GeoResult) : ValidatedResult :=
  if r.status ≠ "success" then
    { base := r
    , validation :=
      { isValid := false, confidence := 0, locationType := "failed_geocoding"
      , reason := some "Geocoding failed" } }
  else
    let v := validateCoordinates r.latitude r.longitude
    { base := r, validation := v
    , combinedConfidence :=
        some (roundTo2 (qadd (qmul r.confidence (mkRat 7 10))
                             (qmul v.confidence (mkRat 3 10)))) }

/-! ### `_try_geocoding_variations` loop (mcdonald_geocoding.py 218-234)

The network client is a parameter (`String → Option GeoResult`, `none`
modelling a falsy result).  The loop is additionally instrumented with the
list of variants actually sent to the client, which makes the effect trace
of the stateful Python loop an explicit value. -/

/-- Skip test of the loop: `if not variation or len(variation.strip()) < 3`. -/
def skipVariation (v : String) : Bool :=
  v = "" || (stripWs v.toList).length < 3

def stopStatus (r : GeoResult) : Prop :=
  r.status = "success" ∨ r.status = "rate_limited"

instance (r : GeoResult) : Decidable (stopStatus r) := by
  unfold stopStatus; infer_instance

/-- The variant loop of `_try_geocoding_variations`. -/
def tryVariationsLoop (client : String → Option GeoResult) : List String → Option GeoResult
  | [] => none
  | v :: vs =>
    if skipVariation v then tryVariationsLoop client vs
    else
      match client v with
      | some r =>
        if r.status = "success" then some r
        else if r.status = "rate_limited" then some r
        else tryVariationsLoop client vs
      | none => tryVariationsLoop client vs

/-- The same loop, also returning the variants passed to the client. -/
def tryVariationsLoopCalls (client : String → Option GeoResult) :
    List String → Option GeoResult × List String
  | [] => (none, [])
  | v :: vs =>
    if skipVariation v then tryVariationsLoopCalls client vs
    else
      match client v with
      | some r =>
        if r.status = "success" then (some r, [v])
        else if r.status = "rate_limited" then (some r, [v])
        else
          let p := tryVariationsLoopCalls client vs
          (p.1, v :: p.2)
      | none =>
        let p := tryVariationsLoopCalls client vs
        (p.1, v :: p.2)

/-! ### Regex substitution machinery

`subAll m repl s` mirrors Python `re.sub`: scan left to right, replace each
non-overlapping leftmost match, resume after the consumed text.  A matcher
receives the character preceding the current position (for `\b` tests) and
the current suffix, and returns the consumed slice and the rest. -/

def Matcher : Type := Option Char → List Char → Option (List Char × List Char)

/-- Word boundary just before a position whose character is `c`. -/
def boundaryL (prev : Option Char) (c : Char) : Bool :=
  match prev with
  | none => isWordC c
  | some p => isWordC p ^^ isWordC c

/-- Word boundary just after a consumed slice ending in `last`. -/
def boundaryR (last : Char) (rest : List Char) : Bool :=
  match rest with
  | [] => isWordC last
  | c :: _ => isWordC last ^^ isWordC c

def subAllGo (m : Matcher) (repl : List Char) :
    Nat → Option Char → List Char → List Char
  | 0, _, s => s
  | _ + 1, _, [] => []
  | n + 1, prev, c :: cs =>
    match m prev (c :: cs) with
    | some (consumed, rest) =>
      repl ++ subAllGo m repl n
        (match consumed.getLast? with | some x => some x | none => prev) rest
    | none => c :: subAllGo m repl n (some c) cs

def subAll (m : Matcher) (repl : List Char) (s : List Char) : List Char :=
  subAllGo m repl (s.length + 1) none s

/-! ### Whitespace collapsing and comma cleanup -/

def wsToSp (c : Char) : Char := if isWsC c then ' ' else c

/-- Squeeze runs of spaces; the flag records whether the previous emitted
character position sits inside a space run. -/
def sqAux : Bool → List Char → List Char
  | _, [] => []
  | b, c :: cs =>
    if c = ' ' then
      (if b then sqAux true cs else ' ' :: sqAux true cs)
    else c :: sqAux false cs

/-- Python `re.sub(r'\s+', ' ', s)`. -/
def collapseWs (s : List Char) : List Char := sqAux false (s.map wsToSp)

/-- Helper for the `,\s*,` matcher: after an opening comma, whitespace then
a second comma; scanning resumes after the second comma. -/
def tryWsComma (cs : List Char) : Option (List Char) :=
  match cs.dropWhile isWsC with
  | ',' :: r => some r
  | _ => none

def dcGo : Nat → List Char → List Char
  | 0, s => s
  | _ + 1, [] => []
  | n + 1, c :: cs =>
    if c = ',' then
      match tryWsComma cs with
      | some rest => ',' :: dcGo n rest
      | none => ',' :: dcGo n cs
    else c :: dcGo n cs

/-- Python `re.sub(r',\s*,', ',', s)`. -/
def dedupComma (s : List Char) : List Char := dcGo s.length s

/-- Python `re.sub(r'\s*,\s*$', '', s)`: remove one trailing comma together
with the whitespace around it (no change if no comma ends the string). -/
def trailCommaSub (s : List Char) : List Char :=
  let t := dropTrail isWsC s
  match t.getLast? with
  | some ',' => dropTrail isWsC t.dropLast
  | _ => s

/-- Python `re.sub(r'^\s*,\s*', '', s)`. -/
def leadCommaSub (s : List Char) : List Char :=
  match s.dropWhile isWsC with
  | ',' :: r => r.dropWhile isWsC
  | _ => s

/-! ### Matchers for the `_clean_address` substitutions -/

/-- Characters allowed after `(?:Tel|Fax|Phone|Telephone):` — `[\d\s\-]`. -/
def isPhoneTailC (c : Char) : Bool := isDigitC c || isWsC c || c = '-'

def telAlternatives : List (List Char) :=
  [ "tel".toList, "fax".toList, "phone".toList, "telephone".toList ]

def telTryWord (s : List Char) : List (List Char) → Option (List Char × List Char)
  | [] => none
  | w :: ws =>
    (if startsWCI w s then
      match s.drop w.length with
      | ':' :: r =>
        let run := r.takeWhile isPhoneTailC
        if run.isEmpty then telTryWord s ws
        else some (s.take (w.length + 1 + run.length), r.drop run.length)
      | _ => telTryWord s ws
    else telTryWord s ws)

/-- `\b(?:Tel|Fax|Phone|Telephone):\s*[\d\s\-]+` (IGNORECASE). -/
def telMatcher : Matcher := fun prev s =>
  match s with
  | [] => none
  | c :: _ =>
    if boundaryL prev c then telTryWord s telAlternatives else none

/-- Boundary test at the head of the suffix. -/
def headBoundary (prev : Option Char) (s : List Char) : Bool :=
  match s with
  | c :: _ => boundaryL prev c
  | [] => false

/-- `\b03-\d{8}\b`. -/
def phone1Matcher : Matcher := fun prev s =>
  if startsW ("03-".toList) s && headBoundary prev s then
    let ds := (s.drop 3).takeWhile isDigitC
    if ds.length = 8 then
      let rest := s.drop 11
      match rest with
      | [] => some (s.take 11, [])
      | c :: _ => if isWordC c then none else some (s.take 11, rest)
    else none
  else none

/-- `\b03-\d{4}\s*\d{4}\b`. -/
def phone2Matcher : Matcher := fun prev s =>
  if startsW ("03-".toList) s && headBoundary prev s then
    let t := s.drop 3
    let d1 := t.takeWhile isDigitC
    if d1.length < 4 then none
    else
      -- `\d{4}` consumes exactly four digits; a fifth digit makes `\s*` empty
      let u := t.drop 4
      let wsr := u.takeWhile isWsC
      let v := u.drop wsr.length
      let d2 := v.takeWhile isDigitC
      if 4 ≤ d2.length then
        let rest := v.drop 4
        let tot := 3 + 4 + wsr.length + 4
        match rest with
        | [] => some (s.take tot, [])
        | c :: _ => if isWordC c then none else some (s.take tot, rest)
      else none
  else none

/-- `\b\+60\s*3-?\d{8}\b`: the leading `\b` sits before `+`, a non-word
character, so it only matches when the preceding character is a word
character. -/
def intlMatcher : Matcher := fun prev s =>
  if (match prev with | some p => isWordC p | none => false) && startsW ("+60".toList) s then
    let t := s.drop 3
    let wsr := t.takeWhile isWsC
    let u := t.drop wsr.length
    match u with
    | '3' :: u1 =>
      let afterDash : Option (Nat × List Char) :=
        match u1 with
        | '-' :: u2 => some (1, u2)
        | _ => some (0, u1)
      match afterDash with
      | some (dashLen, u2) =>
        let ds := u2.takeWhile isDigitC
        if ds.length = 8 then
          let rest := u2.drop 8
          let tot := 3 + wsr.length + 1 + dashLen + 8
          match rest with
          | [] => some (s.take tot, [])
          | c :: _ => if isWordC c then none else some (s.take tot, rest)
        else none
      | none => none
    | _ => none
  else none

/-- `\b\d{3}-\d{8}\b`. -/
def phone3Matcher : Matcher := fun prev s =>
  match s with
  | c :: _ =>
    if boundaryL prev c then
      let d1 := s.takeWhile isDigitC
      if d1.length = 3 then
        match s.drop 3 with
        | '-' :: r =>
          let d2 := r.takeWhile isDigitC
          if d2.length = 8 then
            let rest := r.drop 8
            match rest with
            | [] => some (s.take 12, [])
            | c2 :: _ => if isWordC c2 then none else some (s.take 12, rest)
          else none
        | _ => none
      else none
    else none
  | [] => none

/-! Email pattern `\b[A-Za-z0-9._%+-]+@[A-Za-z0-9.-]+\.[A-Z|a-z]{2,}\b`. -/

def isEmailLocalC (c : Char) : Bool :=
  isAlphaC c || isDigitC c || c = '.' || c = '_' || c = '%' || c = '+' || c = '-'

def isEmailDomC (c : Char) : Bool :=
  isAlphaC c || isDigitC c || c = '.' || c = '-'

def isTldC (c : Char) : Bool := isAlphaC c || c = '|'

/-- Greedy TLD backtracking: try lengths `m, m-1, ..., 2` until the closing
word boundary holds; returns the chosen length. -/
def tldTry (tld : List Char) (afterTld : List Char) : Nat → Option Nat
  | 0 => none
  | m + 1 =>
    if m + 1 < 2 then none
    else
      let last := (tld.take (m + 1)).getLast?
      match last with
      | some lc =>
        if boundaryR lc ((tld.drop (m + 1)) ++ afterTld) then some (m + 1)
        else tldTry tld afterTld m
      | none => none

/-- Greedy domain backtracking: `dom` is the maximal `[A-Za-z0-9.-]` run
after `@`; try dot positions `j, j-1, ..., 1`. -/
def domTry (dom rest : List Char) : Nat → Option (Nat × Nat)
  | 0 => none
  | j + 1 =>
    if j + 1 < dom.length ∧ dom.get? (j + 1) = some '.' then
      let tldStart := dom.drop (j + 2) ++ rest
      let tldRun := tldStart.takeWhile isTldC
      let afterTld := tldStart.drop tldRun.length
      match tldTry tldRun afterTld tldRun.length with
      | some m => some (j + 1, m)
      | none => domTry dom rest j
    else domTry dom rest j

def emailMatcher : Matcher := fun prev s =>
  match s with
  | c :: _ =>
    if isEmailLocalC c ∧ boundaryL prev c then
      let loc := s.takeWhile isEmailLocalC
      match s.drop loc.length with
      | '@' :: r =>
        let dom := r.takeWhile isEmailDomC
        if dom.isEmpty then none
        else
          match domTry dom (r.drop dom.length) dom.length with
          | some (j, m) =>
            let tot := loc.length + 1 + j + 1 + m
            some (s.take tot, s.drop tot)
          | none => none
      | _ => none
    else none
  | [] => none

/-- `https?://[^\s]+` (case sensitive). -/
def url1Matcher : Matcher := fun _ s =>
  let core : Option Nat :=
    if startsW ("https://".toList) s then some 8
    else if startsW ("http://".toList) s then some 7
    else none
  match core with
  | some n =>
    let run := (s.drop n).takeWhile (fun c => !isWsC c)
    if run.isEmpty then none
    else some (s.take (n + run.length), s.drop (n + run.length))
  | none => none

/-- `www\.[^\s]+` (case sensitive). -/
def url2Matcher : Matcher := fun _ s =>
  if startsW ("www.".toList) s then
    let run := (s.drop 4).takeWhile (fun c => !isWsC c)
    if run.isEmpty then none
    else some (s.take (4 + run.length), s.drop (4 + run.length))
  else none

/-- `\b\d{8,}\b`. -/
def longDigitsMatcher : Matcher := fun prev s =>
  match s with
  | c :: _ =>
    if boundaryL prev c then
      let ds := s.takeWhile isDigitC
      if 8 ≤ ds.length then
        let rest := s.drop ds.length
        match rest with
        | [] => some (ds, [])
        | c2 :: _ => if isWordC c2 then none else some (ds, rest)
      else none
    else none
  | [] => none

/-- `\b<abbr>\b` (IGNORECASE), for the abbreviation expansion table. -/
def wordMatcher (abbr : List Char) : Matcher := fun prev s =>
  if startsWCI abbr s && headBoundary prev s then
    let consumed := s.take abbr.length
    match consumed.getLast? with
    | some lc =>
      if boundaryR lc (s.drop abbr.length) then some (consumed, s.drop abbr.length)
      else none
    | none => none
  else none

/-- Abbreviation table of `_clean_address`, in insertion order. -/
def abbrevTable : List (List Char × List Char) :=
  [ ("Jln".toList, "Jalan".toList)
  , ("Jalan".toList, "Jalan".toList)
  , ("Rd".toList, "Road".toList)
  , ("St".toList, "Street".toList)
  , ("Ave".toList, "Avenue".toList)
  , ("Blvd".toList, "Boulevard".toList)
  , ("KL".toList, "Kuala Lumpur".toList)
  , ("W.P.".toList, "Wilayah Persekutuan".toList)
  , ("WP".toList, "Wilayah Persekutuan".toList) ]

/-- Stages 1-17 of `McDonaldGeocoder._clean_address` (mcdonald_geocoding.py
125-201): whitespace normalisation, the substitution pipeline, comma cleanup
and the abbreviation table. -/
def cleanCore (s : List Char) : List Char :=
  let c1 := collapseWs (stripWs s)
  let c2 := subAll telMatcher [] c1
  let c3 := subAll phone1Matcher [] c2
  let c4 := subAll phone2Matcher [] c3
  let c5 := subAll intlMatcher [] c4
  let c6 := subAll phone3Matcher [] c5
  let c7 := subAll emailMatcher [] c6
  let c8 := subAll url1Matcher [] c7
  let c9 := subAll url2Matcher [] c8
  let c10 := dedupComma c9
  let c11 := trailCommaSub c10
  let c12 := leadCommaSub c11
  let c13 := subAll longDigitsMatcher [] c12
  let c14 := collapseWs c13
  let c15 := dropTrail (fun c => c = ',' || isWsC c) c14
  let c16 := stripWs c15
  abbrevTable.foldl (fun acc p => subAll (wordMatcher p.1) p.2 acc) c16

/-- The city and country append stages of `_clean_address`. -/
def cityCountry (x : List Char) : List Char :=
  let c18 :=
    if containsSub (lowerL x) ("kuala lumpur".toList) ||
       containsSub (lowerL x) ("kl".toList) then x
    else x ++ (", Kuala Lumpur".toList)
  if containsSub (lowerL c18) ("malaysia".toList) then c18
  else c18 ++ (", Malaysia".toList)

/-- `McDonaldGeocoder._clean_address` (mcdonald_geocoding.py 125-201). -/
def cleanAddressL (s : List Char) : List Char :=
  if s.isEmpty then []
  else stripWs (dedupComma (collapseWs (cityCountry (cleanCore s))))

def cleanAddress (s : String) : String := String.mk (cleanAddressL s.toList)

/-! ### `_simplify_address` (mcdonald_geocoding.py 415-440) -/

/-- `\b(?:Floor|Level|Unit|Lot)\s+\d+[A-Z]?\b` (IGNORECASE): the trailing
letter is taken when followed by a boundary; otherwise no shorter digit
run can satisfy the closing `\b`. -/
def floorTryWord (s : List Char) : List (List Char) → Option (List Char × List Char)
  | [] => none
  | w :: ws =>
    (if startsWCI w s then
      let t := s.drop w.length
      let wsr := t.takeWhile isWsC
      if wsr.isEmpty then floorTryWord s ws
      else
        let u := t.drop wsr.length
        let ds := u.takeWhile isDigitC
        if ds.isEmpty then floorTryWord s ws
        else
          let base := w.length + wsr.length + ds.length
          match u.drop ds.length with
          | [] => some (s.take base, s.drop base)
          | c :: v2 =>
            if isAlphaC c then
              (if boundaryR c v2 then some (s.take (base + 1), s.drop (base + 1))
               else floorTryWord s ws)
            else if isWordC c then floorTryWord s ws
            else some (s.take base, s.drop base)
    else floorTryWord s ws)

def floorMatcher : Matcher := fun prev s =>
  if headBoundary prev s then
    floorTryWord s ["floor".toList, "level".toList, "unit".toList, "lot".toList]
  else none

/-- Tail of `\b\d+[A-Z]?[-\s]*\d+[A-Z]?\b` after the optional first letter:
separator run, second digit run, optional capital, closing boundary. -/
def unitSepD2 (u : List Char) : Option Nat :=
  let sep := u.takeWhile (fun c => c = '-' || isWsC c)
  let v := u.drop sep.length
  let d2 := v.takeWhile isDigitC
  if d2.isEmpty then none
  else
    match v.drop d2.length with
    | [] => some (sep.length + d2.length)
    | c :: w2 =>
      if isUpperC c then
        (if boundaryR c w2 then some (sep.length + d2.length + 1) else none)
      else if isWordC c then none
      else some (sep.length + d2.length)

def unitAfterD1 (s : List Char) : Option Nat :=
  match s with
  | c :: t =>
    if isUpperC c then
      match unitSepD2 t with
      | some n => some (1 + n)
      | none => unitSepD2 s
    else unitSepD2 s
  | [] => none

/-- Greedy backtracking over the first digit-run length. -/
def unitTryD1 (s : List Char) : Nat → Option (Nat × Nat)
  | 0 => none
  | i + 1 =>
    match unitAfterD1 (s.drop (i + 1)) with
    | some n => some (i + 1, n)
    | none => unitTryD1 s i

def unitMatcher : Matcher := fun prev s =>
  if headBoundary prev s then
    let ds := s.takeWhile isDigitC
    if ds.isEmpty then none
    else
      match unitTryD1 s ds.length with
      | some (i, n) => some (s.take (i + n), s.drop (i + n))
      | none => none
  else none

/-- `\([^)]*\)`. -/
def parenMatcher : Matcher := fun _ s =>
  match s with
  | '(' :: t =>
    let run := t.takeWhile (fun c => c ≠ ')')
    (match t.drop run.length with
     | ')' :: r => some (s.take (run.length + 2), r)
     | _ => none)
  | _ => none

/-- `McDonaldGeocoder._simplify_address`. -/
def simplifyAddressL (s : List Char) : List Char :=
  let s1 := subAll floorMatcher [] s
  let s2 := subAll unitMatcher [] s1
  let s3 := subAll parenMatcher [] s2
  let s4 := dedupComma s3
  let s5 := collapseWs s4
  let t := stripWs s5
  let t2 := dropTrail (fun c => c = ',') (t.dropWhile (fun c => c = ','))
  stripWs t2

/-! ### `_generate_progressive_variations` (mcdonald_geocoding.py 236-334) -/

/-- The brand token, case sensitive. -/
def mcdCS : List Char := ("McDonald".toList) ++ [apos, 's']

/-- `re.sub(r',?\s*Malaysia\s*$', '', address, flags=re.IGNORECASE)`. -/
def stripMalaysiaSuffix (s : List Char) : List Char :=
  let t := dropTrail isWsC s
  let n := t.length
  if 8 ≤ n ∧ lowerL (t.drop (n - 8)) = ("malaysia".toList) then
    let u := dropTrail isWsC (t.take (n - 8))
    match u.getLast? with
    | some ',' => u.dropLast
    | _ => u
  else s

/-- `Jalan\s+([^,]+)` at one position; returns the captured group.  When the
greedy `\s+` leaves the group empty (a comma or the end follows the run),
one whitespace character is given back to the group. -/
def jalanTry (s : List Char) : Option (List Char) :=
  if startsWCI ("jalan".toList) s then
    let rest := s.drop 5
    let wsr := rest.takeWhile isWsC
    if wsr.isEmpty then none
    else
      let after := rest.drop wsr.length
      let grp := after.takeWhile (fun c => c ≠ ',')
      if !grp.isEmpty then some grp
      else
        match wsr.getLast? with
        | some lc => if 2 ≤ wsr.length then some [lc] else none
        | none => none
  else none

/-- Literal-only capture pattern such as `(Cheras)` (IGNORECASE). -/
def litOnly (lit : List Char) (s : List Char) : Option (List Char) :=
  if startsWCI lit s then some (s.take lit.length) else none

/-- Pattern `lit\s{wsMin,}\w{wordMin,}` capturing the whole slice, for
`(Bukit\s+\w+)`, `(Bangsar\s*\w*)` and the like. -/
def litWsWord (lit : List Char) (wsMin wordMin : Nat) (s : List Char) :
    Option (List Char) :=
  if startsWCI lit s then
    let rest := s.drop lit.length
    let wsr := rest.takeWhile isWsC
    if wsr.length < wsMin then none
    else
      let rest2 := rest.drop wsr.length
      let wr := rest2.takeWhile isWordC
      if wr.length < wordMin then none
      else some (s.take (lit.length + wsr.length + wr.length))
  else none

def litChainGo (s : List Char) : Nat → List (List Char) → Option Nat
  | acc, [] => some acc
  | acc, p :: ps =>
    let cur := s.drop acc
    let wsr := cur.takeWhile isWsC
    if wsr.isEmpty then none
    else
      let cur2 := cur.drop wsr.length
      if startsWCI p cur2 then litChainGo s (acc + wsr.length + p.length) ps
      else none

/-- Pattern `lit1\s+lit2\s+...` capturing the whole slice (IGNORECASE). -/
def litChain (parts : List (List Char)) (s : List Char) : Option (List Char) :=
  match parts with
  | [] => none
  | p :: ps =>
    if startsWCI p s then (litChainGo s p.length ps).map (fun n => s.take n)
    else none

/-- The `area_patterns` list, in source order. -/
def areaPatterns : List (List Char → Option (List Char)) :=
  [ litWsWord ("bukit".toList) 1 1
  , litWsWord ("bangsar".toList) 0 0
  , litChain ["mont".toList, "kiara".toList]
  , fun s =>
      match litOnly ("ttdi".toList) s with
      | some m => some m
      | none => litChain ["taman".toList, "tun".toList, "dr".toList, "ismail".toList] s
  , litOnly ("cheras".toList)
  , litOnly ("kepong".toList)
  , litOnly ("sentul".toList)
  , litOnly ("ampang".toList)
  , litOnly ("petaling".toList)
  , litOnly ("setapak".toList)
  , litChain ["wangsa".toList, "maju".toList]
  , litChain ["sri".toList, "petaling".toList]
  , litChain ["danau".toList, "kota".toList]
  , litWsWord ("desa".toList) 1 1
  , litWsWord ("taman".toList) 1 1 ]

/-- The `landmark_patterns` list, in source order. -/
def landmarkPatterns : List (List Char → Option (List Char)) :=
  [ litChain ["times".toList, "square".toList]
  , litOnly ("pavilion".toList)
  , fun s =>
      match litOnly ("klcc".toList) s with
      | some m => some m
      | none => litChain ["suria".toList, "klcc".toList] s
  , litChain ["mid".toList, "valley".toList]
  , litChain ["nu".toList, "sentral".toList]
  , litChain ["sunway".toList, "velocity".toList]
  , litOnly ("mytown".toList)
  , litOnly ("intermark".toList)
  , litChain ["berjaya".toList, "times".toList, "square".toList] ]

/-- First pattern in the list with a match anywhere in `s`. -/
def firstScan : List (List Char → Option (List Char)) → List Char → Option (List Char)
  | [], _ => none
  | p :: ps, s =>
    match scanP p s with
    | some m => some m
    | none => firstScan ps s

/-- Greedy `\s+` backtracking for `McDonald` brand `\s+(.+)` when the string
ends in the whitespace run: the group starts at the latest whitespace
character that is not a newline. -/
def nameBT (wsr : List Char) : Nat → Option (List Char)
  | 0 => none
  | i + 1 =>
    match wsr.drop (i + 1) with
    | c :: _ =>
      if c ≠ '\n' then some ((wsr.drop (i + 1)).takeWhile (fun x => x ≠ '\n'))
      else nameBT wsr i
    | [] => nameBT wsr i

/-- The capture of `McDonald`-brand`\s+(.+)` (case sensitive) at one position. -/
def namePat (s : List Char) : Option (List Char) :=
  if startsW mcdCS s then
    let rest := s.drop 10
    let wsr := rest.takeWhile isWsC
    if wsr.isEmpty then none
    else
      let after := rest.drop wsr.length
      match after with
      | [] => nameBT wsr (wsr.length - 1)
      | _ :: _ => some (after.takeWhile (fun c => c ≠ '\n'))
  else none

/-- `re.sub(r'\s+(DT|SF)$', '', location)` (case sensitive). -/
def dtSfSub (t : List Char) : List Char :=
  match t.reverse with
  | 'T' :: 'D' :: c :: rest =>
    if isWsC c then ((c :: rest).dropWhile isWsC).reverse else t
  | 'F' :: 'S' :: c :: rest =>
    if isWsC c then ((c :: rest).dropWhile isWsC).reverse else t
  | _ => t

/-- Order-preserving dedup with falsy filter (source lines 326-334). -/
def dedupKO (seen : List (List Char)) : List (List Char) → List (List Char)
  | [] => []
  | v :: vs =>
    if v ≠ [] ∧ v ∉ seen then v :: dedupKO (v :: seen) vs
    else dedupKO seen vs

/-- `McDonaldGeocoder._generate_progressive_variations`. -/
def generateProgressiveVariationsL (address name : List Char) : List (List Char) :=
  let cleanA := stripMalaysiaSuffix address
  let vStreet : List (List Char) :=
    match scanP jalanTry cleanA with
    | some g =>
      let st := stripWs g
      [st ++ (", Kuala Lumpur".toList), ("Jalan ".toList) ++ st ++ (", KL".toList)]
    | none => []
  let vArea : List (List Char) :=
    match firstScan areaPatterns cleanA with
    | some m => [stripWs m ++ (", Kuala Lumpur".toList)]
    | none => []
  let vLandmark : List (List Char) :=
    match firstScan landmarkPatterns cleanA with
    | some m => [stripWs m ++ (", Kuala Lumpur".toList)]
    | none => []
  let vName : List (List Char) :=
    if name ≠ [] ∧ containsSub name mcdCS then
      match scanP namePat name with
      | some g => [dtSfSub (stripWs g) ++ (", Kuala Lumpur".toList)]
      | none => []
    else []
  let baseList := [cleanA] ++ vStreet ++ vArea ++ vLandmark ++ vName
  let simplified := simplifyAddressL cleanA
  let vSimp : List (List Char) :=
    if simplified ≠ [] ∧ simplified ∉ baseList then [simplified] else []
  dedupKO [] (baseList ++ vSimp ++ [("Kuala Lumpur".toList), ("KL".toList)])

def generateProgressiveVariations (address name : String) : List String :=
  (generateProgressiveVariationsL address.toList name.toList).map String.mk

/-- `McDonaldGeocoder._try_geocoding_variations` (lines 203-234). -/
def tryGeocodingVariations (client : String → Option GeoResult)
    (address name : String) : Option GeoResult :=
  tryVariationsLoop client (generateProgressiveVariations address name)

/-! ### Outlet records (Python dictionaries)

A record is a finite map from string keys to values; Python `None` stored
under a key is the value `vNone` (the spec reads such a field as absent).
Numeric formatting of non-string values in f-strings is not needed by any
embedded path and is abstracted in `valFmt`. -/

/-- Geocoding summary attached to an outlet record. -/
structure GeocodingInfo where
  status : String
  confidence : ℚ
  formattedAddress : String
  locationType : String
  validationIssues : Option (List String) := none
  reason : Option String := none
deriving DecidableEq

inductive Val where
  | vStr : String → Val
  | vNum : ℚ → Val
  | vNone : Val
  | vGeo : GeocodingInfo → Val
deriving DecidableEq

def Dict : Type := String → Option Val

/-- `outlet_data.get(k, '')` for string-typed fields. -/
def getStrD (d : Dict) (k : String) : String :=
  match d k with
  | some (Val.vStr s) => s
  | _ => ""

def vOfOpt (o : Option ℚ) : Val :=
  match o with
  | some q => Val.vNum q
  | none => Val.vNone

/-- `{**outlet_data, 'latitude': lat, 'longitude': lng, 'geocoding': g}`. -/
def enhanceWith (d : Dict) (lat lng : Val) (g : GeocodingInfo) : Dict :=
  fun k =>
    if k = "latitude" then some lat
    else if k = "longitude" then some lng
    else if k = "geocoding" then some (Val.vGeo g)
    else d k

/-- `McDonaldGeocoder._add_geocoding_failure` (lines 442-464). -/
def addGeocodingFailure (d : Dict) (reason : String) : Dict :=
  enhanceWith d Val.vNone Val.vNone
    { status := "failed", confidence := 0, formattedAddress := ""
    , locationType := "failed", reason := some reason }

/-- Status of the geocoding summary of a record, when present. -/
def getGeoStatus (d : Dict) : Option String :=
  match d "geocoding" with
  | some (Val.vGeo g) => some g.status
  | _ => none

/-- A field is either missing or holds a (possibly `None`) string, the
typing Python assumes of the scraped records. -/
def strOrAbsent (d : Dict) (k : String) : Prop :=
  d k = none ∨ d k = some Val.vNone ∨ ∃ s, d k = some (Val.vStr s)

/-- Method 2 of `geocode_outlet` (source lines 78-123): address geocoding
with validation.  Factored out of `geocodeOutlet` for the fall-through
branch of the navigation-link attempt. -/
def geocodeFromAddress (client : String → Option GeoResult) (d : Dict)
    (address name : String) : Dict :=
  if address = "" then addGeocodingFailure d "No address provided"
  else
    match tryGeocodingVariations client (cleanAddress address) name with
    | some r =>
      if r.status = "success" then
        let validated := validateGeocodingResult r
        if !validated.validation.isValid then
          addGeocodingFailure d "Invalid coordinates"
        else
          enhanceWith d (vOfOpt r.latitude) (vOfOpt r.longitude)
            { status := "success"
            , confidence := validated.combinedConfidence.getD 0
            , formattedAddress := r.formattedAddress.getD ""
            , locationType := validated.validation.locationType
            , validationIssues := some (validated.validation.validationIssues.getD []) }
      else addGeocodingFailure d "Geocoding failed"
    | none => addGeocodingFailure d "Geocoding failed"

/-- `McDonaldGeocoder.geocode_outlet` (mcdonald_geocoding.py 31-123) over
an abstract geocoding client.  The statistics counters of the class are
run-report state and are not part of the record transformation. -/
def geocodeOutlet (client : String → Option GeoResult) (d : Dict) : Dict :=
  let name := getStrD d "name"
  let address := getStrD d "address"
  let wazeLink := getStrD d "waze_link"
  let wazeRes := if wazeLink ≠ "" then extractWaze wazeLink else (none, none)
  match wazeRes with
  | (some la, some lo) =>
    enhanceWith d (Val.vNum la) (Val.vNum lo)
      { status := "success", confidence := mkRat 95 100
      , formattedAddress := address, locationType := "waze_link"
      , validationIssues := some [] }
  | _ => geocodeFromAddress client d address name

/-! ### Dedup key and the orchestrator dedup loop
(mcdonald_scraper.py 594-609; the same key/check/append pattern also
appears at lines 432-452 and 471-491).  The `name` and `address` fields of
every scraped record are strings, so the f-string key is the plain
concatenation below. -/

def dedupKey (d : Dict) : String :=
  getStrD d "name" ++ "-" ++ getStrD d "address"

/-- The per-record dedup step of the orchestrator: key, membership test
against the processed set, append on a fresh key. -/
def dedupFoldGo : List Dict → List Dict → List String → List Dict
  | [], outlets, _ => outlets
  | d :: ds, outlets, processed =>
    let k := dedupKey d
    if k ∈ processed then dedupFoldGo ds outlets processed
    else dedupFoldGo ds (outlets ++ [d]) (k :: processed)

def dedupFold (ds : List Dict) : List Dict := dedupFoldGo ds [] []

def c3d1 : Dict := fun k =>
  if k = "name" then some (Val.vStr "A") else
  if k = "address" then some (Val.vStr "J1") else none

def c3d2 : Dict := fun k =>
  if k = "name" then some (Val.vStr "A") else
  if k = "address" then some (Val.vStr "J1") else
  if k = "phone" then some (Val.vStr "03") else none

/-! ### `_split_multiple_outlets` (mcdonald_scraper.py 713-826) -/

/-- Lowercase brand token. -/
def mcdLower : List Char := ("mcdonald".toList) ++ [apos, 's']

/-- Lookahead of the primary split pattern: brand token, one or more
whitespace characters, then a letter (`[A-Z]` under IGNORECASE). -/
def lookMc (u : List Char) : Bool :=
  startsWCI mcdLower u &&
  (match u.drop 10 with
   | c :: _ =>
     isWsC c &&
     (match (u.drop 10).dropWhile isWsC with
      | x :: _ => isAlphaC x
      | [] => false)
   | [] => false)

/-- Scanner for `re.split` with pattern newline-whitespace-lookahead. -/
def psGo : Nat → List Char → List Char → List (List Char)
  | 0, acc, s => [acc.reverse ++ s]
  | _ + 1, acc, [] => [acc.reverse]
  | n + 1, acc, c :: rest =>
    if c = '\n' then
      let wsr := rest.takeWhile isWsC
      let after := rest.drop wsr.length
      if lookMc after then acc.reverse :: psGo n [] after
      else psGo n (c :: acc) rest
    else psGo n (c :: acc) rest

def primarySplit (t : List Char) : List (List Char) := psGo t.length [] t

/-- Scanner for the boundary pattern: lookbehind `Waze`, a whitespace run
containing a newline, lookahead the brand token (all IGNORECASE). -/
def bsGo : Nat → List Char → List Char → List (List Char)
  | 0, acc, s => [acc.reverse ++ s]
  | _ + 1, acc, [] => [acc.reverse]
  | n + 1, acc, c :: rest =>
    let behindOK :=
      match acc with
      | e :: z :: a :: w :: _ =>
        lowerC w = 'w' && lowerC a = 'a' && lowerC z = 'z' && lowerC e = 'e'
      | _ => false
    let wsr := (c :: rest).takeWhile isWsC
    if behindOK && wsr.any (fun x => x = '\n') &&
        startsWCI mcdLower ((c :: rest).drop wsr.length) then
      acc.reverse :: bsGo n [] ((c :: rest).drop wsr.length)
    else bsGo n (c :: acc) rest

def boundarySplit (t : List Char) : List (List Char) := bsGo t.length [] t

/-- Strip, then apply the block validity conditions of the source. -/
def cleanBlocks (kws : List (List Char)) (blocks : List (List Char)) : List (List Char) :=
  (blocks.map stripWs).filter (fun b =>
    !b.isEmpty && containsSub (lowerL b) mcdLower && 50 < b.length &&
    kws.any (fun kw => containsSub (lowerL b) kw))

def splitKeywords1 : List (List Char) :=
  [ "jalan".toList, "road".toList, "street".toList, "malaysia".toList
  , "kuala lumpur".toList, "kl".toList ]

def splitKeywords2 : List (List Char) :=
  [ "jalan".toList, "road".toList, "street".toList, "malaysia".toList
  , "kuala lumpur".toList ]

/-- `McDonaldMalaysiaScraper._split_multiple_outlets`. -/
def splitMultipleOutletsL (t : List Char) : List (List Char) :=
  let cnt := countOcc (lowerL t) mcdLower
  if cnt ≤ 1 then [t]
  else
    let clean1 := cleanBlocks splitKeywords1 (primarySplit t)
    if 1 < clean1.length then clean1
    else
      let clean2 := cleanBlocks splitKeywords2 (boundarySplit t)
      if 1 < clean2.length ∧ clean2.length ≤ 100 then clean2 else [t]

def splitMultipleOutlets (t : String) : List String :=
  (splitMultipleOutletsL t.toList).map String.mk

def c10client : String → Option GeoResult := fun _ => none

def c10dict : Dict := fun k =>
  if k = "phone" then some (Val.vStr "03-21662188") else none

def c2client : String → Option GeoResult := fun _ => none

def c2dict : Dict := fun k =>
  if k = "name" then some (Val.vStr "M")
  else if k = "waze_link" then some (Val.vStr "https://waze.com/ul?ll=3.1570,101.7123")
  else if k = "address" then some (Val.vStr "Jalan A")
  else none

def c1client : String → Option GeoResult := fun _ =>
  some { status := "success", latitude := some (mkRat 10 1)
       , longitude := some (mkRat 50 1), formattedAddress := some "Z"
       , confidence := mkRat 1 2 }

def c1dict : Dict := fun k =>
  if k = "name" then some (Val.vStr "M")
  else if k = "address" then some (Val.vStr "Jalan Y")
  else none

def c1result : GeoResult :=
  { status := "success", latitude := some (mkRat 10 1)
  , longitude := some (mkRat 50 1), formattedAddress := some "Z"
  , confidence := mkRat 1 2 }

def c1cexClient : String → Option GeoResult := fun _ => none

/-- A record whose navigation link encodes a pair inside Malaysia but far
outside Kuala Lumpur. -/
def c1cexDict : Dict := fun k =>
  if k = "name" then some (Val.vStr "M")
  else if k = "waze_link" then some (Val.vStr "https://waze.com/ul?ll=6.5,110.0")
  else if k = "address" then some (Val.vStr "Jalan A")
  else none

def c6success : GeoResult :=
  { status := "success", latitude := some (mkRat 31 10)
  , longitude := some (mkRat 1017 10), confidence := mkRat 9 10 }

def c6client : String → Option GeoResult := fun v =>
  if v = "KL" then some c6success else some { status := "no_results" }

def c8xA : List Char := mcdCS ++ " Alpha Jalan Ampang Kuala Lumpur aaaaaaa".toList

def c8xB : List Char := mcdCS ++ " Bravo Jalan Cheras Kuala Lumpur bbbbbbb".toList

def c8wA : List Char := mcdCS ++ " Alpha Jalan Ampang Kuala Lumpur aaaaaaaa".toList

def c8wB : List Char := mcdCS ++ " Bravo Jalan Cheras Kuala Lumpur bbbbbbbb".toList

/-! ### Substring machinery for the `_clean_address` token claim -/

def occursL (s pat : List Char) : Prop :=
  ∃ u q v, s = u ++ (q ++ v) ∧ lowerL q = pat

def headNotSp : List Char → Prop
  | [] => True
  | c :: _ => c ≠ ' '

def headNonWs : List Char → Prop
  | [] => True
  | c :: _ => isWsC c = false

def headHard : List Char → Prop
  | [] => True
  | c :: _ => c ≠ ',' ∧ isWsC c = false

/-- Flag contract for `sqAux` traversal: each space is preceded by a
non-space (the flag records whether the previous character was a space). -/
def goodP : Bool → List Char → Bool
  | _, [] => true
  | b, c :: t => (if c = ' ' then !b else true) && goodP (decide (c = ' ')) t

/-- State of the `sqAux` flag after a chunk. -/
def endFlag (b : Bool) (p : List Char) : Bool :=
  match p.getLast? with
  | some c => decide (c = ' ')
  | none => b

def headNotWsB : List Char → Bool
  | [] => false
  | c :: _ => !(isWsC c)

/-- Side conditions on a pattern under which the final stages of
`_clean_address` preserve its occurrences: nonempty, no whitespace at
either end, comma-free, every whitespace character is a plain space, and
no two adjacent spaces. -/
def patOK (p : List Char) : Bool :=
  headNotWsB p && headNotWsB p.reverse &&
  p.all (fun c => !(c = ',') && (!(isWsC c) || c = ' ')) &&
  goodP false p

/-! ### Soundness facts about the extraction -/

theorem gateMY_char (r : ℚ × ℚ) :
    gateMY r = (none, none) ∨ (gateMY r = (some r.1, some r.2) ∧ inMYBounds r.1 r.2) := by
  unfold gateMY
  split_ifs with h
  · exact Or.inr ⟨rfl, h⟩
  · exact Or.inl rfl

theorem altLoop_cons (s : List Char) (p : List Char → Option (ℚ × ℚ)) (ps) :
    altLoop s (p :: ps) =
      (match scanP p s with
       | some r => if inMYBounds r.1 r.2 then (some r.1, some r.2) else altLoop s ps
       | none => altLoop s ps) := rfl

theorem altLoop_sound (s : List Char) :
    ∀ ps, altLoop s ps = (none, none) ∨
      ∃ la lo, altLoop s ps = (some la, some lo) ∧ inMYBounds la lo := by
  intro ps
  induction ps with
  | nil => exact Or.inl rfl
  | cons p ps ih =>
    rw [altLoop_cons]
    cases h : scanP p s with
    | none => simpa using ih
    | some r =>
      simp only []
      split_ifs with hb
      · exact Or.inr ⟨r.1, r.2, rfl, hb⟩
      · simpa using ih

theorem extractWazeL_sound (s : List Char) :
    extractWazeL s = (none, none) ∨
      ∃ la lo, extractWazeL s = (some la, some lo) ∧ inMYBounds la lo := by
  unfold extractWazeL
  split_ifs with h
  · exact Or.inl rfl
  · cases h1 : scanP (pairPat true ("to=ll.".toList) ("%2c".toList)) s with
    | some r =>
      rcases gateMY_char r with hg | ⟨hg, hb⟩
      · simp [hg]
      · exact Or.inr ⟨r.1, r.2, by simp [hg], hb⟩
    | none =>
      cases h2 : scanP (pairPat false ("ll=".toList) (",".toList)) s with
      | some r =>
        rcases gateMY_char r with hg | ⟨hg, hb⟩
        · simp [hg]
        · exact Or.inr ⟨r.1, r.2, by simp [hg], hb⟩
      | none => simpa using altLoop_sound s wazeAltPatterns

theorem qadd_eq (a b : ℚ) : qadd a b = a + b := by
  rw [qadd, Rat.mkRat_eq_div]
  conv_rhs => rw [← Rat.num_div_den a, ← Rat.num_div_den b]
  rw [div_add_div _ _ (by positivity) (by positivity)]
  push_cast
  ring_nf

theorem qsub_eq (a b : ℚ) : qsub a b = a - b := by
  rw [qsub, Rat.mkRat_eq_div]
  conv_rhs => rw [← Rat.num_div_den a, ← Rat.num_div_den b]
  rw [div_sub_div _ _ (by positivity) (by positivity)]
  push_cast
  ring_nf

theorem qmul_eq (a b : ℚ) : qmul a b = a * b := by
  rw [qmul, Rat.mkRat_eq_div]
  conv_rhs => rw [← Rat.num_div_den a, ← Rat.num_div_den b]
  rw [div_mul_div_comm]
  push_cast
  ring_nf

theorem qmax_eq (a b : ℚ) : qmax a b = max a b := by
  rw [qmax, max_def]

theorem tryVariationsLoopCalls_fst (client : String → Option GeoResult) :
    ∀ vs, (tryVariationsLoopCalls client vs).1 = tryVariationsLoop client vs := by
  intro vs
  induction vs with
  | nil => rfl
  | cons v vs ih =>
    rw [tryVariationsLoop, tryVariationsLoopCalls]
    split_ifs with hs
    · exact ih
    · cases hc : client v with
      | none => simpa using ih
      | some r =>
        simp only []
        split_ifs with h1 h2
        · rfl
        · rfl
        · simpa using ih

/-! ### Shape lemmas for geocode_outlet -/

theorem geocodeFromAddress_frame (client : String → Option GeoResult) (d : Dict)
    (address name : String) (k : String)
    (h1 : k ≠ "latitude") (h2 : k ≠ "longitude") (h3 : k ≠ "geocoding") :
    geocodeFromAddress client d address name k = d k := by
  have hE : ∀ (a b : Val) (g : GeocodingInfo), enhanceWith d a b g k = d k := by
    intro a b g
    simp [enhanceWith, h1, h2, h3]
  unfold geocodeFromAddress addGeocodingFailure
  split_ifs with ha
  · exact hE _ _ _
  · rcases htry : tryGeocodingVariations client (cleanAddress address) name with _ | r
    · simp only [htry]
      exact hE _ _ _
    · simp only [htry]
      split_ifs <;> exact hE _ _ _

theorem enhanceWith_geoStatus (d : Dict) (a b : Val) (g : GeocodingInfo) :
    getGeoStatus (enhanceWith d a b g) = some g.status := by
  simp [getGeoStatus, enhanceWith]

theorem enhanceWith_lat (d : Dict) (a b : Val) (g : GeocodingInfo) :
    enhanceWith d a b g "latitude" = some a := rfl

theorem enhanceWith_lng (d : Dict) (a b : Val) (g : GeocodingInfo) :
    enhanceWith d a b g "longitude" = some b := by
  simp [enhanceWith]

theorem addGeocodingFailure_status (d : Dict) (reason : String) :
    getGeoStatus (addGeocodingFailure d reason) = some "failed" := by
  simp [addGeocodingFailure, enhanceWith_geoStatus]

theorem addGeocodingFailure_lat (d : Dict) (reason : String) :
    addGeocodingFailure d reason "latitude" = some Val.vNone := rfl

theorem addGeocodingFailure_lng (d : Dict) (reason : String) :
    addGeocodingFailure d reason "longitude" = some Val.vNone := by
  simp [addGeocodingFailure, enhanceWith_lng]

theorem geocodeFromAddress_shape (client : String → Option GeoResult) (d : Dict)
    (address name : String) :
    (∃ reason, geocodeFromAddress client d address name = addGeocodingFailure d reason) ∨
    (∃ r g, tryGeocodingVariations client (cleanAddress address) name = some r ∧
       r.status = "success" ∧
       (validateGeocodingResult r).validation.isValid = true ∧
       g.status = "success" ∧
       geocodeFromAddress client d address name =
         enhanceWith d (vOfOpt r.latitude) (vOfOpt r.longitude) g) := by
  unfold geocodeFromAddress
  split_ifs with ha
  · exact Or.inl ⟨_, rfl⟩
  · rcases htry : tryGeocodingVariations client (cleanAddress address) name with _ | r
    · simp only [htry]
      exact Or.inl ⟨_, rfl⟩
    · simp only [htry]
      split_ifs with hs hv
      · exact Or.inl ⟨_, rfl⟩
      · refine Or.inr ⟨r, _, rfl, hs, ?_, rfl, rfl⟩
        simpa using hv
      · exact Or.inl ⟨_, rfl⟩

theorem geocodeOutlet_shape (client : String → Option GeoResult) (d : Dict) :
    (∃ la lo g, getStrD d "waze_link" ≠ "" ∧
       extractWaze (getStrD d "waze_link") = (some la, some lo) ∧
       g.status = "success" ∧
       geocodeOutlet client d = enhanceWith d (Val.vNum la) (Val.vNum lo) g) ∨
    geocodeOutlet client d =
      geocodeFromAddress client d (getStrD d "address") (getStrD d "name") := by
  unfold geocodeOutlet
  try dsimp only
  rcases hwz : (if getStrD d "waze_link" ≠ "" then extractWaze (getStrD d "waze_link")
      else ((none, none) : Option ℚ × Option ℚ)) with ⟨wa | wa, wb | wb⟩
  · exact Or.inr rfl
  · exact Or.inr rfl
  · exact Or.inr rfl
  · by_cases hne : getStrD d "waze_link" ≠ ""
    · rw [if_pos hne] at hwz
      exact Or.inl ⟨wa, wb, _, hne, hwz, rfl, rfl⟩
    · rw [if_neg hne] at hwz
      exact absurd hwz (by simp)

theorem validateCoordinates_valid (olat olng : Option ℚ)
    (h : (validateCoordinates olat olng).isValid = true) :
    ∃ la lo, olat = some la ∧ olng = some lo ∧
      mkRat 29 10 ≤ la ∧ la ≤ mkRat 34 10 ∧ mkRat 1015 10 ≤ lo ∧ lo ≤ mkRat 1019 10 := by
  rcases olat with _ | la
  · simp [validateCoordinates] at h
  · rcases olng with _ | lo
    · simp [validateCoordinates] at h
    · refine ⟨la, lo, rfl, rfl, ?_⟩
      by_cases hkl : isWithinBounds la lo klBounds = true
      · have hb := of_decide_eq_true (by simpa [isWithinBounds] using hkl)
        simpa [klBounds] using hb
      · rw [Bool.not_eq_true] at hkl
        simp [validateCoordinates, hkl] at h

theorem validateGeocodingResult_validation (r : GeoResult) (hs : r.status = "success") :
    (validateGeocodingResult r).validation = validateCoordinates r.latitude r.longitude := by
  simp [validateGeocodingResult, hs]

/-- Claim C2: for every input outlet record, the record returned by
`geocode_outlet` has, when its geocoding status is `success`, both
latitude and longitude present as numbers within the global bounds
(-90..90, -180..180); when the status is `failed`, both fields hold
`None` (the absent value of the spec data model). -/
theorem claim_C2 (client : String → Option GeoResult) (d : Dict) :
    (getGeoStatus (geocodeOutlet client d) = some "success" →
      ∃ la lo, geocodeOutlet client d "latitude" = some (Val.vNum la) ∧
        geocodeOutlet client d "longitude" = some (Val.vNum lo) ∧
        -90 ≤ la ∧ la ≤ 90 ∧ -180 ≤ lo ∧ lo ≤ 180) ∧
    (getGeoStatus (geocodeOutlet client d) = some "failed" →
      geocodeOutlet client d "latitude" = some Val.vNone ∧
      geocodeOutlet client d "longitude" = some Val.vNone) := by
  rcases geocodeOutlet_shape client d with ⟨la, lo, g, hne, hx, hgs, hEq⟩ | hEq
  · constructor
    · intro _
      refine ⟨la, lo, by rw [hEq, enhanceWith_lat], by rw [hEq, enhanceWith_lng], ?_⟩
      rcases extractWazeL_sound (getStrD d "waze_link").toList with h0 | ⟨la2, lo2, hx2, hb⟩
      · rw [show extractWaze (getStrD d "waze_link") = extractWazeL (getStrD d "waze_link").toList from rfl] at hx
        rw [h0] at hx
        exact absurd hx (by simp)
      · rw [show extractWaze (getStrD d "waze_link") = extractWazeL (getStrD d "waze_link").toList from rfl] at hx
        rw [hx2] at hx
        injection hx with hA hB
        injection hA with hA
        injection hB with hB
        subst hA; subst hB
        obtain ⟨b1, b2, b3, b4⟩ := hb
        refine ⟨by linarith, by linarith, by linarith, by linarith⟩
    · intro hf
      rw [hEq, enhanceWith_geoStatus, hgs] at hf
      exact absurd hf (by simp)
  · rw [hEq]
    rcases geocodeFromAddress_shape client d (getStrD d "address") (getStrD d "name") with
      ⟨reason, hR⟩ | ⟨r, g, htry, hs, hvalid, hgs, hR⟩
    · rw [hR]
      constructor
      · intro hsucc
        rw [addGeocodingFailure_status] at hsucc
        exact absurd hsucc (by simp)
      · intro _
        exact ⟨addGeocodingFailure_lat d reason, addGeocodingFailure_lng d reason⟩
    · rw [hR]
      constructor
      · intro _
        rw [validateGeocodingResult_validation r hs] at hvalid
        obtain ⟨la, lo, h1, h2, b1, b2, b3, b4⟩ := validateCoordinates_valid _ _ hvalid
        refine ⟨la, lo, ?_, ?_, ?_, ?_, ?_, ?_⟩
        · rw [enhanceWith_lat, h1]; rfl
        · rw [enhanceWith_lng, h2]; rfl
        · rw [Rat.mkRat_eq_div] at b1; push_cast at b1; linarith
        · rw [Rat.mkRat_eq_div] at b2; push_cast at b2; linarith
        · rw [Rat.mkRat_eq_div] at b3; push_cast at b3; linarith
        · rw [Rat.mkRat_eq_div] at b4; push_cast at b4; linarith
      · intro hf
        rw [enhanceWith_geoStatus, hgs] at hf
        exact absurd hf (by simp)

theorem dedupFoldGo_nodup :
    ∀ (ds : List Dict) (outlets : List Dict) (processed : List String),
      ((outlets.map dedupKey).Nodup) →
      (∀ k ∈ outlets.map dedupKey, k ∈ processed) →
      ((dedupFoldGo ds outlets processed).map dedupKey).Nodup := by
  intro ds
  induction ds with
  | nil => intro o p h _; exact h
  | cons d ds ih =>
    intro o p h hsub
    rw [dedupFoldGo]
    split_ifs with hk
    · exact ih o p h hsub
    · apply ih
      · rw [List.map_append]
        have hnm : dedupKey d ∉ o.map dedupKey := fun hmem => hk (hsub _ hmem)
        simp only [List.map_cons, List.map_nil]
        exact List.Nodup.append h (List.nodup_singleton _) (by
          intro a ha hb
          simp only [List.mem_singleton] at hb
          subst hb
          exact hnm ha)
      · intro k hkm
        rw [List.map_append] at hkm
        rcases List.mem_append.mp hkm with hmem | hmem
        · exact List.mem_cons_of_mem _ (hsub _ hmem)
        · simp only [List.map_cons, List.map_nil, List.mem_singleton] at hmem
          subst hmem
          exact List.mem_cons_self _ _

/-- Claim C3: the dedup key is the exact concatenation name-dash-address,
a pure function of the name and address fields, and one run of the
orchestrator loop appends at most one record per key: the keys of the kept
list contain no duplicate. -/
theorem claim_C3 :
    (∀ d : Dict, dedupKey d = getStrD d "name" ++ "-" ++ getStrD d "address") ∧
    (∀ d1 d2 : Dict, d1 "name" = d2 "name" → d1 "address" = d2 "address" →
       dedupKey d1 = dedupKey d2) ∧
    (∀ ds : List Dict, ((dedupFold ds).map dedupKey).Nodup) := by
  refine ⟨fun d => rfl, ?_, ?_⟩
  · intro d1 d2 hn ha
    unfold dedupKey getStrD
    rw [hn, ha]
  · intro ds
    exact dedupFoldGo_nodup ds [] [] (by simp) (by simp)

/-- Witness for C3 on a run containing a duplicate record. -/
theorem claim_C3_witness :
    ((dedupFold [c3d1, c3d2, c3d1]).map dedupKey).Nodup ∧
    dedupKey c3d1 = dedupKey c3d2 :=
  ⟨claim_C3.2.2 [c3d1, c3d2, c3d1], claim_C3.2.1 c3d1 c3d2 rfl rfl⟩

/-! ## Claim theorems -/

/-- Claim C10: `geocode_outlet` preserves every key of the input record
other than `latitude`, `longitude` and `geocoding`, which are the only
fields it adds or overwrites, on success and failure paths alike. -/
theorem claim_C10 (client : String → Option GeoResult) (d : Dict) (k : String)
    (h1 : k ≠ "latitude") (h2 : k ≠ "longitude") (h3 : k ≠ "geocoding") :
    geocodeOutlet client d k = d k := by
  have hE : ∀ (a b : Val) (g : GeocodingInfo), enhanceWith d a b g k = d k := by
    intro a b g
    simp [enhanceWith, h1, h2, h3]
  unfold geocodeOutlet
  try dsimp only
  rcases hwz : (if getStrD d "waze_link" ≠ "" then extractWaze (getStrD d "waze_link")
      else ((none, none) : Option ℚ × Option ℚ)) with ⟨wa | wa, wb | wb⟩
  · exact geocodeFromAddress_frame client d _ _ k h1 h2 h3
  · exact geocodeFromAddress_frame client d _ _ k h1 h2 h3
  · exact geocodeFromAddress_frame client d _ _ k h1 h2 h3
  · exact hE _ _ _

/-- Witness for C10 at a concrete record and the key `phone`. -/
theorem claim_C10_witness : geocodeOutlet c10client c10dict "phone" = c10dict "phone" :=
  claim_C10 c10client c10dict "phone" (by decide) (by decide) (by decide)

/-- Witness for C2: a record geocoded from its navigation link satisfies
the success half of the invariant at concrete values. -/
theorem claim_C2_witness :
    ∃ la lo, geocodeOutlet c2client c2dict "latitude" = some (Val.vNum la) ∧
      geocodeOutlet c2client c2dict "longitude" = some (Val.vNum lo) ∧
      -90 ≤ la ∧ la ≤ 90 ∧ -180 ≤ lo ∧ lo ≤ 180 :=
  (claim_C2 c2client c2dict).1 (by decide)

/-- Claim C1 (amended): only the address-geocoding branch runs the
coordinate validator.  Whenever the navigation-link attempt yields no
pair and address geocoding returns a result with status `success` whose
coordinates the validator rejects, the record is failed with reason
`Invalid coordinates` and both coordinates are `None`.  (The
navigation-link branch reports success after only the Malaysia-wide
bounds check, without `KLCoordinateValidator`; see the counterexample.) -/
theorem claim_C1 (client : String → Option GeoResult) (d : Dict) (r : GeoResult)
    (hw : extractWaze (getStrD d "waze_link") = (none, none))
    (ha : getStrD d "address" ≠ "")
    (hr : tryGeocodingVariations client (cleanAddress (getStrD d "address"))
            (getStrD d "name") = some r)
    (hs : r.status = "success")
    (hv : (validateCoordinates r.latitude r.longitude).isValid = false) :
    geocodeOutlet client d = addGeocodingFailure d "Invalid coordinates" ∧
    geocodeOutlet client d "latitude" = some Val.vNone ∧
    geocodeOutlet client d "longitude" = some Val.vNone := by
  have hmain : geocodeOutlet client d = addGeocodingFailure d "Invalid coordinates" := by
    unfold geocodeOutlet
    try dsimp only
    have hif : (if getStrD d "waze_link" ≠ "" then extractWaze (getStrD d "waze_link")
        else ((none, none) : Option ℚ × Option ℚ)) = (none, none) := by
      split_ifs with h
      · exact hw
      · rfl
    rw [hif]
    show geocodeFromAddress client d (getStrD d "address") (getStrD d "name") = _
    unfold geocodeFromAddress
    rw [if_neg ha]
    simp only [hr]
    rw [if_pos hs]
    have hval : (validateGeocodingResult r).validation.isValid = false := by
      rw [validateGeocodingResult_validation r hs, hv]
    simp [hval]
  refine ⟨hmain, ?_, ?_⟩
  · rw [hmain, addGeocodingFailure_lat]
  · rw [hmain, addGeocodingFailure_lng]

/-- Witness for C1 at a concrete record whose address geocodes to a point
outside Kuala Lumpur. -/
theorem claim_C1_witness :
    geocodeOutlet c1client c1dict "latitude" = some Val.vNone ∧
    geocodeOutlet c1client c1dict "longitude" = some Val.vNone :=
  (claim_C1 c1client c1dict c1result (by decide) (by decide) (by decide)
    (by decide) (by decide)).2

/-- Counterexample to C1 as stated: the navigation-link branch reports
status `success` and keeps the pair (6.5, 110.0) even though
`validate_coordinates` rejects it, so the validator is not run on that
branch. -/
theorem claim_C1_counterexample :
    getGeoStatus (geocodeOutlet c1cexClient c1cexDict) = some "success" ∧
    geocodeOutlet c1cexClient c1cexDict "latitude" = some (Val.vNum (mkRat 13 2)) ∧
    geocodeOutlet c1cexClient c1cexDict "longitude" = some (Val.vNum (mkRat 110 1)) ∧
    (validateCoordinates (some (mkRat 13 2)) (some (mkRat 110 1))).isValid = false := by
  refine ⟨?_, ?_, ?_, by decide⟩ <;> decide

/-- Counterexample to C6 as stated: the generated variant list for the
address `Jalan Ampang` contains the variant `KL`, the client maps `KL` to
a success result, yet the loop returns `None` because variants whose
stripped length is below 3 are skipped without querying the client. -/
theorem claim_C6_counterexample :
    tryGeocodingVariations c6client "Jalan Ampang" "X" = none ∧
    "KL" ∈ generateProgressiveVariations "Jalan Ampang" "X" ∧
    c6client "KL" = some c6success ∧ c6success.status = "success" := by
  refine ⟨by decide, by decide, rfl, rfl⟩

/-- Claim C6 (amended): the variant loop queries the client exactly on the
eligible variants (nonempty, stripped length at least 3), in order; it
stops at the first result whose status is success or rate_limited and
returns it, querying no variant after it; when no queried variant stops
the loop it returns `None` after querying every eligible variant. -/
theorem claim_C6 (client : String → Option GeoResult) (vs : List String) :
    tryVariationsLoop client vs = (tryVariationsLoopCalls client vs).1 ∧
    ∃ rest,
      vs.filter (fun v => !skipVariation v) = (tryVariationsLoopCalls client vs).2 ++ rest ∧
      ((tryVariationsLoopCalls client vs).1 = none →
        rest = [] ∧
        ∀ v ∈ (tryVariationsLoopCalls client vs).2, ∀ r, client v = some r → ¬ stopStatus r) ∧
      (∀ r, (tryVariationsLoopCalls client vs).1 = some r →
        stopStatus r ∧
        ∃ v calls₀, (tryVariationsLoopCalls client vs).2 = calls₀ ++ [v] ∧
          client v = some r ∧
          ∀ u ∈ calls₀, ∀ q, client u = some q → ¬ stopStatus q) := by
  refine ⟨(tryVariationsLoopCalls_fst client vs).symm, ?_⟩
  induction vs with
  | nil =>
    refine ⟨[], rfl, fun _ => ⟨rfl, fun v hv => ?_⟩, fun r hr => ?_⟩
    · rw [show tryVariationsLoopCalls client [] = (none, []) from rfl] at hv
      exact absurd hv (by simp)
    · rw [show tryVariationsLoopCalls client [] = (none, []) from rfl] at hr
      exact absurd hr (by simp)
  | cons v vs ih =>
    obtain ⟨rest, hsplit, hnone, hsome⟩ := ih
    by_cases hs : skipVariation v
    · refine ⟨rest, ?_, ?_, ?_⟩
      · have e : tryVariationsLoopCalls client (v :: vs) = tryVariationsLoopCalls client vs := by
          rw [tryVariationsLoopCalls, if_pos hs]
        rw [e, List.filter_cons]
        simpa [hs] using hsplit
      · intro h
        rw [show tryVariationsLoopCalls client (v :: vs) = tryVariationsLoopCalls client vs from by
          rw [tryVariationsLoopCalls, if_pos hs]] at h ⊢
        exact hnone h
      · intro r h
        rw [show tryVariationsLoopCalls client (v :: vs) = tryVariationsLoopCalls client vs from by
          rw [tryVariationsLoopCalls, if_pos hs]] at h ⊢
        exact hsome r h
    · cases hc : client v with
      | none =>
        refine ⟨rest, ?_, ?_, ?_⟩
        · simp only [tryVariationsLoopCalls, if_neg hs, hc, List.filter_cons, hs,
            Bool.not_false, if_true]
          simpa using hsplit
        · intro h
          simp only [tryVariationsLoopCalls, if_neg hs, hc] at h ⊢
          obtain ⟨h1, h2⟩ := hnone h
          refine ⟨h1, ?_⟩
          intro u hu r hr
          rcases List.mem_cons.mp hu with rfl | hu
          · rw [hr] at hc; exact absurd hc (by simp)
          · exact h2 u hu r hr
        · intro r h
          simp only [tryVariationsLoopCalls, if_neg hs, hc] at h ⊢
          obtain ⟨hstop, w, calls₀, hdec, hcw, hfront⟩ := hsome r h
          refine ⟨hstop, w, v :: calls₀, by simp [hdec], hcw, ?_⟩
          intro u hu q hq
          rcases List.mem_cons.mp hu with rfl | hu
          · rw [hq] at hc; exact absurd hc (by simp)
          · exact hfront u hu q hq
      | some r0 =>
        by_cases h1 : r0.status = "success"
        · refine ⟨vs.filter (fun v => !skipVariation v), ?_, ?_, ?_⟩
          · simp [tryVariationsLoopCalls, if_neg hs, hc, h1, List.filter_cons, hs]
          · intro h
            simp [tryVariationsLoopCalls, if_neg hs, hc, h1] at h
          · intro r h
            simp only [tryVariationsLoopCalls, if_neg hs, hc, h1, if_true, ite_true] at h ⊢
            obtain rfl : r0 = r := by simpa using h
            exact ⟨Or.inl h1, v, [], by simp, hc, by simp⟩
        · by_cases h2 : r0.status = "rate_limited"
          · refine ⟨vs.filter (fun v => !skipVariation v), ?_, ?_, ?_⟩
            · simp [tryVariationsLoopCalls, if_neg hs, hc, h1, h2, List.filter_cons, hs]
            · intro h
              simp [tryVariationsLoopCalls, if_neg hs, hc, h1, h2] at h
            · intro r h
              simp only [tryVariationsLoopCalls, if_neg hs, hc, h1, h2, if_false, ite_false,
                if_true, ite_true] at h ⊢
              obtain rfl : r0 = r := by simpa using h
              exact ⟨Or.inr h2, v, [], by simp, hc, by simp⟩
          · refine ⟨rest, ?_, ?_, ?_⟩
            · simp only [tryVariationsLoopCalls, if_neg hs, hc, h1, h2, if_false, ite_false,
                List.filter_cons, hs, Bool.not_false, if_true]
              simpa using hsplit
            · intro h
              simp only [tryVariationsLoopCalls, if_neg hs, hc, h1, h2, if_false, ite_false] at h ⊢
              obtain ⟨ha, hb⟩ := hnone h
              refine ⟨ha, ?_⟩
              intro u hu q hq
              rcases List.mem_cons.mp hu with rfl | hu
              · rw [hq] at hc
                obtain rfl : q = r0 := by simpa using hc
                rintro (hq1 | hq2)
                · exact h1 hq1
                · exact h2 hq2
              · exact hb u hu q hq
            · intro r h
              simp only [tryVariationsLoopCalls, if_neg hs, hc, h1, h2, if_false, ite_false] at h ⊢
              obtain ⟨hstop, w, calls₀, hdec, hcw, hfront⟩ := hsome r h
              refine ⟨hstop, w, v :: calls₀, by simp [hdec], hcw, ?_⟩
              intro u hu q hq
              rcases List.mem_cons.mp hu with rfl | hu
              · rw [hq] at hc
                obtain rfl : q = r0 := by simpa using hc
                rintro (hq1 | hq2)
                · exact h1 hq1
                · exact h2 hq2
              · exact hfront u hu q hq

/-- Witness for C6 at a concrete client and variant list. -/
theorem claim_C6_witness :
    tryVariationsLoop c6client ["KL", "Jalan Ampang"] =
      (tryVariationsLoopCalls c6client ["KL", "Jalan Ampang"]).1 :=
  (claim_C6 c6client ["KL", "Jalan Ampang"]).1

/-- Claim C4: navigation-link coordinate extraction from a URL containing the
percent-encoded segment `to=ll.3.146847%2C101.710931` yields exactly the pair
`(3.146847, 101.710931)`, and extraction from a URL containing the query
parameter `ll=3.1570,101.7123` yields exactly `(3.1570, 101.7123)`. -/
theorem claim_C4 :
    extractWaze "https://www.waze.com/live-map/directions?to=ll.3.146847%2C101.710931" =
      (some (3.146847 : ℚ), some (101.710931 : ℚ)) ∧
    extractWaze "https://waze.com/ul?ll=3.1570,101.7123" =
      (some (3.1570 : ℚ), some (101.7123 : ℚ)) := by
  have h1 : extractWaze "https://www.waze.com/live-map/directions?to=ll.3.146847%2C101.710931" =
      (some (mkRat 3146847 1000000), some (mkRat 101710931 1000000)) := by decide
  have h2 : extractWaze "https://waze.com/ul?ll=3.1570,101.7123" =
      (some (mkRat 3157 1000), some (mkRat 1017123 10000)) := by decide
  constructor
  · rw [h1]
    norm_num [Prod.ext_iff, Rat.mkRat_eq_div]
  · rw [h2]
    norm_num [Prod.ext_iff, Rat.mkRat_eq_div]

/-- Claim C5: for every pair inside the central bounding box (with no
precision penalty; the water penalty never fires in the source),
`validate_coordinates` reports valid, central location type (string
`central_kl` in the code, named `central` by the spec) and confidence 0.9;
for every pair outside the coarse KL box it reports invalid with
confidence 0. -/
theorem claim_C5 (la lo : ℚ) :
    ((3 ≤ la ∧ la ≤ 3.25 ∧ 101.6 ≤ lo ∧ lo ≤ 101.8 ∧ la.den ∣ 10 ^ 6 ∧ lo.den ∣ 10 ^ 6) →
      (validateCoordinates (some la) (some lo)).isValid = true ∧
      (validateCoordinates (some la) (some lo)).locationType = "central_kl" ∧
      (validateCoordinates (some la) (some lo)).confidence = 0.9) ∧
    ((¬ (2.9 ≤ la ∧ la ≤ 3.4 ∧ 101.5 ≤ lo ∧ lo ≤ 101.9)) →
      (validateCoordinates (some la) (some lo)).isValid = false ∧
      (validateCoordinates (some la) (some lo)).confidence = 0) := by
  constructor
  · rintro ⟨h1, h2, h3, h4, hd1, hd2⟩
    have hkl : isWithinBounds la lo klBounds = true := by
      simp only [isWithinBounds, klBounds, decide_eq_true_eq]
      refine ⟨?_, ?_, ?_, ?_⟩ <;> rw [Rat.mkRat_eq_div] <;> push_cast <;> norm_num <;> linarith
    have hcen : isWithinBounds la lo klCentralBounds = true := by
      simp only [isWithinBounds, klCentralBounds, decide_eq_true_eq]
      refine ⟨?_, ?_, ?_, ?_⟩ <;> rw [Rat.mkRat_eq_div] <;> push_cast <;> norm_num <;> linarith
    have hd1n : la.den ∣ 1000000 := by norm_num at hd1; exact hd1
    have hd2n : lo.den ∣ 1000000 := by norm_num at hd2; exact hd2
    have hprec : isTooPrecise la lo = false := by
      simp [isTooPrecise, hd1n, hd2n]
    have hconf : roundTo2 (qmax (mkRat 9 10) (mkRat 1 10)) = mkRat 9 10 := by decide
    simp only [validateCoordinates, hkl, hcen, hprec, isInWater, Bool.not_true,
      if_false, if_true, Bool.false_eq_true, ite_false, ite_true]
    refine ⟨trivial, trivial, ?_⟩
    rw [hconf, Rat.mkRat_eq_div]
    norm_num
  · intro hout
    have hkl : isWithinBounds la lo klBounds = false := by
      rw [isWithinBounds, decide_eq_false_iff_not]
      intro ⟨g1, g2, g3, g4⟩
      apply hout
      simp only [klBounds] at g1 g2 g3 g4
      rw [Rat.mkRat_eq_div] at g1 g2 g3 g4
      push_cast at g1 g2 g3 g4
      refine ⟨by linarith, by linarith, by linarith, by linarith⟩
    simp only [validateCoordinates, hkl, Bool.not_false, if_true, ite_true]
    exact ⟨trivial, trivial⟩

/-- Witness for C5 at the central point (3.1, 101.7) and the outside point
(10, 50). -/
theorem claim_C5_witness :
    ((validateCoordinates (some (mkRat 31 10)) (some (mkRat 1017 10))).isValid = true ∧
     (validateCoordinates (some (mkRat 31 10)) (some (mkRat 1017 10))).locationType = "central_kl" ∧
     (validateCoordinates (some (mkRat 31 10)) (some (mkRat 1017 10))).confidence = 0.9) ∧
    ((validateCoordinates (some 10) (some 50)).isValid = false ∧
     (validateCoordinates (some 10) (some 50)).confidence = 0) :=
  ⟨(claim_C5 (mkRat 31 10) (mkRat 1017 10)).1
    (by refine ⟨?_, ?_, ?_, ?_, by decide, by decide⟩ <;>
          rw [Rat.mkRat_eq_div] <;> norm_num),
   (claim_C5 10 50).2 (by norm_num)⟩

/-- Claim C9: for every input URL string, navigation-link coordinate
extraction either yields `(None, None)` or yields a fully set pair lying
within the Malaysia-wide bounding box `1 ≤ lat ≤ 7`, `99 ≤ lon ≤ 119`; in
particular every coordinate pair it hands to the rest of the pipeline lies
within those bounds, and a URL matching no pattern yields absence. -/
theorem claim_C9 (url : String) :
    extractWaze url = (none, none) ∨
      ∃ la lo, extractWaze url = (some la, some lo) ∧
        1 ≤ la ∧ la ≤ 7 ∧ 99 ≤ lo ∧ lo ≤ 119 := by
  simpa [extractWaze, inMYBounds] using extractWazeL_sound url.toList

theorem ps_noNl : ∀ (X : List Char), (∀ c ∈ X, c ≠ '\n') →
    ∀ (n : Nat) (acc s : List Char), X.length ≤ n →
      psGo n acc (X ++ s) = psGo (n - X.length) (X.reverse ++ acc) s := by
  intro X
  induction X with
  | nil => intro _ n acc s _; simp
  | cons x X ih =>
    intro hnl n acc s hn
    match n, hn with
    | m + 1, hn =>
      have hx : x ≠ '\n' := hnl x (List.mem_cons_self _ _)
      show psGo (m + 1) acc (x :: (X ++ s)) = _
      rw [psGo]
      rw [if_neg hx]
      rw [ih (fun c hc => hnl c (List.mem_cons_of_mem _ hc)) m (x :: acc) s (by
        simpa using Nat.succ_le_succ_iff.mp hn)]
      have e1 : m + 1 - (x :: X).length = m - X.length := by
        simp only [List.length_cons]
        omega
      have e2 : (x :: X).reverse ++ acc = X.reverse ++ (x :: acc) := by
        simp
      rw [e1, e2]

theorem isUpperC_not_ws (c : Char) (h : isUpperC c = true) : isWsC c = false := by
  simp only [isWsC, Bool.or_eq_false_iff, decide_eq_false_iff_not]
  repeat' constructor
  all_goals intro he
  all_goals subst he
  all_goals exact absurd h (by decide)

theorem isUpperC_alpha (c : Char) (h : isUpperC c = true) : isAlphaC c = true := by
  unfold isUpperC at h
  unfold isAlphaC
  rw [h]
  simp

theorem startsW_self_append : ∀ (p r : List Char), startsW p (p ++ r) = true := by
  intro p
  induction p with
  | nil => intro r; rfl
  | cons x p ih => intro r; simpa [startsW] using ih r

theorem containsSub_of_startsW (s p : List Char) (h : startsW p s = true) :
    containsSub s p = true := by
  cases s with
  | nil =>
    cases p with
    | nil => rfl
    | cons x xs => simp [startsW] at h
  | cons c cs => simp [containsSub, h]

theorem lowerL_mcdCS : lowerL mcdCS = mcdLower := rfl

theorem lookMc_shape (c : Char) (cs : List Char) (hc : isUpperC c = true) :
    lookMc (mcdCS ++ ' ' :: c :: cs) = true := by
  unfold lookMc
  have hstarts : startsWCI mcdLower (mcdCS ++ ' ' :: c :: cs) = true := rfl
  rw [hstarts]
  have hdrop : (mcdCS ++ ' ' :: c :: cs).drop 10 = ' ' :: c :: cs := by
    have h10 : mcdCS.length = 10 := rfl
    rw [← h10, List.drop_left]
  rw [hdrop]
  have hws : isWsC ' ' = true := rfl
  have hnws : isWsC c = false := isUpperC_not_ws c hc
  simp [hws, hnws, isUpperC_alpha c hc]

theorem takeWhile_ws_mcd (r : List Char) : (mcdCS ++ r).takeWhile isWsC = [] := rfl

/-- Claim C8 (amended): on at most one brand occurrence the splitter
returns the original text as the single block; a two-outlet block made of
two single-line stripped parts, each strictly longer than 50 characters,
each containing the brand token and an address keyword, separated by a
newline followed by the brand token, a space and a capitalized word,
splits into exactly those two blocks. -/
theorem claim_C8 :
    (∀ t : List Char, countOcc (lowerL t) mcdLower ≤ 1 → splitMultipleOutletsL t = [t]) ∧
    (∀ A B : List Char,
      (∀ c ∈ A, c ≠ '\n') → (∀ c ∈ B, c ≠ '\n') →
      stripWs A = A → stripWs B = B →
      50 < A.length → 50 < B.length →
      containsSub (lowerL A) mcdLower = true →
      splitKeywords1.any (fun kw => containsSub (lowerL A) kw) = true →
      splitKeywords1.any (fun kw => containsSub (lowerL B) kw) = true →
      (∃ c cs, B = mcdCS ++ ' ' :: c :: cs ∧ isUpperC c = true) →
      1 < countOcc (lowerL (A ++ '\n' :: B)) mcdLower →
      splitMultipleOutletsL (A ++ '\n' :: B) = [A, B]) := by
  constructor
  · intro t h
    unfold splitMultipleOutletsL
    rw [if_pos h]
  · intro A B hAnl hBnl hAs hBs hAl hBl hAm hAk hBk hBshape hcnt
    obtain ⟨c, cs, hB, hc⟩ := hBshape
    have hBhead : B.takeWhile isWsC = [] := by rw [hB]; exact takeWhile_ws_mcd _
    have hps : primarySplit (A ++ '\n' :: B) = [A, B] := by
      unfold primarySplit
      have hlen : (A ++ '\n' :: B).length = A.length + (B.length + 1) := by
        simp only [List.length_append, List.length_cons]
      rw [hlen]
      rw [ps_noNl A hAnl _ [] ('\n' :: B) (by omega)]
      have harith : A.length + (B.length + 1) - A.length = B.length + 1 := by omega
      rw [harith]
      rw [psGo]
      rw [if_pos rfl]
      rw [hBhead]
      dsimp only
      simp only [List.length_nil, List.drop_zero]
      have hlook : lookMc B = true := by rw [hB]; exact lookMc_shape c cs hc
      rw [hlook]
      simp only [if_true, List.append_nil, List.reverse_reverse]
      congr 1
      have h2 := ps_noNl B hBnl B.length [] [] (by simp)
      simp only [List.append_nil] at h2
      rw [h2]
      simp [psGo]
    have hBm : containsSub (lowerL B) mcdLower = true := by
      apply containsSub_of_startsW
      rw [hB]
      have : lowerL (mcdCS ++ ' ' :: c :: cs) = mcdLower ++ lowerL (' ' :: c :: cs) := by
        rw [show lowerL (mcdCS ++ ' ' :: c :: cs) = lowerL mcdCS ++ lowerL (' ' :: c :: cs) from
          List.map_append _ _ _, lowerL_mcdCS]
      rw [this]
      exact startsW_self_append _ _
    have hAne : A.isEmpty = false := by
      cases A with
      | nil => simp at hAl
      | cons x xs => rfl
    have hBne : B.isEmpty = false := by
      cases B with
      | nil => simp at hBl
      | cons x xs => rfl
    have hclean : cleanBlocks splitKeywords1 [A, B] = [A, B] := by
      unfold cleanBlocks
      rw [List.map_cons, List.map_cons, List.map_nil, hAs, hBs]
      rw [List.filter_cons, List.filter_cons]
      simp [hAne, hBne, hAm, hBm, hAk, hBk, hAl, hBl]
    unfold splitMultipleOutletsL
    rw [if_neg (by omega)]
    rw [hps, hclean]
    simp

/-- Counterexample to C8 as stated: two parts of exactly 50 characters,
each containing the brand token and an address keyword, separated by a
newline followed by the brand token, a space and a capitalized word; the
splitter keeps blocks only when strictly longer than 50 characters, so it
returns the whole text as a single block instead of two. -/
theorem claim_C8_counterexample :
    c8xA.length = 50 ∧ c8xB.length = 50 ∧
    containsSub (lowerL c8xA) mcdLower = true ∧
    containsSub (lowerL c8xB) mcdLower = true ∧
    (splitKeywords1.any fun kw => containsSub (lowerL c8xA) kw) = true ∧
    (splitKeywords1.any fun kw => containsSub (lowerL c8xB) kw) = true ∧
    (∃ c cs, c8xB = mcdCS ++ ' ' :: c :: cs ∧ isUpperC c = true) ∧
    splitMultipleOutletsL (c8xA ++ '\n' :: c8xB) = [c8xA ++ '\n' :: c8xB] := by
  refine ⟨by decide, by decide, by decide, by decide, by decide, by decide,
    ⟨'B', "ravo Jalan Cheras Kuala Lumpur bbbbbbb".toList, by decide, by decide⟩, by decide⟩

/-- Witness for C8 on a single-outlet text and on a concrete two-outlet
text with parts of 51 characters. -/
theorem claim_C8_witness :
    splitMultipleOutletsL ("hello".toList) = ["hello".toList] ∧
    splitMultipleOutletsL (c8wA ++ '\n' :: c8wB) = [c8wA, c8wB] :=
  ⟨claim_C8.1 ("hello".toList) (by decide),
   claim_C8.2 c8wA c8wB (by decide) (by decide) (by decide) (by decide) (by decide)
     (by decide) (by decide) (by decide) (by decide)
     ⟨'B', "ravo Jalan Cheras Kuala Lumpur bbbbbbbb".toList, by decide, by decide⟩
     (by decide)⟩

theorem startsW_iff (p : List Char) : ∀ s, startsW p s = true ↔ ∃ r, s = p ++ r := by
  induction p with
  | nil =>
    intro s
    constructor
    · intro _; exact ⟨s, rfl⟩
    · intro _; rfl
  | cons x p ih =>
    intro s
    cases s with
    | nil =>
      constructor
      · intro h; exact absurd h (by simp [startsW])
      · rintro ⟨r, hr⟩; exact absurd hr (by simp)
    | cons c cs =>
      constructor
      · intro h
        rw [startsW, Bool.and_eq_true, decide_eq_true_eq] at h
        obtain ⟨rfl, h2⟩ := h
        obtain ⟨r, rfl⟩ := (ih cs).mp h2
        exact ⟨r, rfl⟩
      · rintro ⟨r, hr⟩
        rw [List.cons_append] at hr
        injection hr with h1 h2
        subst h1
        rw [startsW, Bool.and_eq_true, decide_eq_true_eq]
        exact ⟨rfl, (ih cs).mpr ⟨r, h2⟩⟩

theorem containsSub_iff (p : List Char) :
    ∀ s, containsSub s p = true ↔ ∃ u v, s = u ++ (p ++ v) := by
  intro s
  induction s with
  | nil =>
    constructor
    · intro h
      have hp : p = [] := by
        cases p with
        | nil => rfl
        | cons x xs => exact absurd h (by simp [containsSub])
      exact ⟨[], [], by simp [hp]⟩
    · rintro ⟨u, v, hv⟩
      have h1 : u = [] ∧ p ++ v = [] := List.append_eq_nil.mp hv.symm
      have h2 : p = [] ∧ v = [] := List.append_eq_nil.mp h1.2
      rw [h2.1]
      rfl
  | cons c cs ih =>
    constructor
    · intro h
      rw [containsSub, Bool.or_eq_true] at h
      rcases h with h | h
      · obtain ⟨r, hr⟩ := (startsW_iff p _).mp h
        exact ⟨[], r, by simp [hr]⟩
      · obtain ⟨u, v, hv⟩ := ih.mp h
        exact ⟨c :: u, v, by rw [List.cons_append, hv]⟩
    · rintro ⟨u, v, hv⟩
      rw [containsSub, Bool.or_eq_true]
      cases u with
      | nil =>
        rw [List.nil_append] at hv
        exact Or.inl ((startsW_iff p _).mpr ⟨v, hv⟩)
      | cons a u1 =>
        rw [List.cons_append] at hv
        injection hv with h1 h2
        exact Or.inr (ih.mpr ⟨u1, v, h2⟩)

theorem map_split (f : Char → Char) : ∀ (l y z : List Char),
    l.map f = y ++ z → ∃ u v, l = u ++ v ∧ u.map f = y ∧ v.map f = z := by
  intro l
  induction l with
  | nil =>
    intro y z h
    have h1 : y = [] ∧ z = [] := List.append_eq_nil.mp h.symm
    exact ⟨[], [], rfl, by simp [h1.1], by simp [h1.2]⟩
  | cons a t ih =>
    intro y z h
    cases y with
    | nil => exact ⟨[], a :: t, rfl, rfl, by simpa using h⟩
    | cons b y1 =>
      rw [List.map_cons, List.cons_append] at h
      injection h with h1 h2
      obtain ⟨u, v, rfl, hu, hv⟩ := ih y1 z h2
      exact ⟨a :: u, v, rfl, by rw [List.map_cons, hu, h1], hv⟩

theorem occursL_iff (s pat : List Char) :
    containsSub (lowerL s) pat = true ↔ occursL s pat := by
  rw [containsSub_iff]
  constructor
  · rintro ⟨U, V, hUV⟩
    obtain ⟨u, m, rfl, hu, hm⟩ := map_split lowerC s U (pat ++ V) hUV
    obtain ⟨q, v, rfl, hq, hv⟩ := map_split lowerC m pat V hm
    exact ⟨u, q, v, rfl, hq⟩
  · rintro ⟨u, q, v, rfl, hq⟩
    refine ⟨lowerL u, lowerL v, ?_⟩
    rw [lowerL, List.map_append, List.map_append]
    rw [show q.map lowerC = pat from hq]
    rfl

theorem occursL_append (s t pat : List Char) (h : occursL s pat) :
    occursL (s ++ t) pat := by
  obtain ⟨u, q, v, rfl, hq⟩ := h
  exact ⟨u, q, v ++ t, by simp, hq⟩

/-! ### Character-level facts about `lowerC` -/

theorem lowerC_of_ws (c : Char) (h : isWsC c = true) : lowerC c = c := by
  rw [isWsC] at h
  simp only [Bool.or_eq_true, decide_eq_true_eq] at h
  rcases h with ((((h | h) | h) | h) | h) | h <;> subst h <;> decide

theorem chunk_not_ws {c p : Char} (h : lowerC c = p) (hp : isWsC p = false) :
    isWsC c = false := by
  cases hw : isWsC c with
  | false => rfl
  | true =>
    rw [lowerC_of_ws c hw] at h
    subst h
    rw [hw] at hp
    exact absurd hp (by simp)

theorem chunk_ws_sp {c p : Char} (h : lowerC c = p) (hws : isWsC c = true) :
    c = p := by
  rw [← h, lowerC_of_ws c hws]

theorem chunk_not_comma {c p : Char} (h : lowerC c = p) (hp : p ≠ ',') :
    c ≠ ',' := by
  intro he
  subst he
  apply hp
  rw [← h]
  decide

/-! ### Pattern side conditions and chunk facts -/

theorem patOK_all {p : List Char} (hp : patOK p = true) :
    ∀ x ∈ p, x ≠ ',' ∧ (isWsC x = true → x = ' ') := by
  rw [patOK] at hp
  simp only [Bool.and_eq_true, List.all_eq_true] at hp
  intro x hx
  have h := hp.1.2 x hx
  simp only [Bool.and_eq_true, Bool.or_eq_true, Bool.not_eq_true',
    decide_eq_true_eq, decide_eq_false_iff_not] at h
  refine ⟨h.1, ?_⟩
  intro hw
  rcases h.2 with h2 | h2
  · rw [hw] at h2; exact absurd h2 (by simp)
  · exact h2

theorem patOK_ne_nil {p : List Char} (hp : patOK p = true) : p ≠ [] := by
  intro he
  subst he
  rw [patOK] at hp
  simp [headNotWsB] at hp

theorem patOK_headNotSp {p : List Char} (hp : patOK p = true) : headNotSp p := by
  cases p with
  | nil => trivial
  | cons x t =>
    rw [patOK] at hp
    simp only [Bool.and_eq_true] at hp
    have h1 : headNotWsB (x :: t) = true := hp.1.1.1
    rw [headNotWsB, Bool.not_eq_true'] at h1
    intro he
    subst he
    exact absurd h1 (by simp [isWsC])

theorem chunk_facts {q p : List Char} (hq : lowerL q = p) (hp : patOK p = true) :
    (∀ c ∈ q, c ≠ ',') ∧ (∀ c ∈ q, isWsC c = true → c = ' ') := by
  constructor
  · intro c hc
    have hm : lowerC c ∈ p := by rw [← hq]; exact List.mem_map_of_mem _ hc
    exact chunk_not_comma rfl ((patOK_all hp _ hm).1)
  · intro c hc hw
    have hm : lowerC c ∈ p := by rw [← hq]; exact List.mem_map_of_mem _ hc
    have hcl : c = lowerC c := chunk_ws_sp rfl hw
    have hsp : lowerC c = ' ' := (patOK_all hp _ hm).2 (by rw [← hcl]; exact hw)
    rw [hcl, hsp]

theorem chunk_head_ws {c : Char} {q1 p : List Char}
    (hq : lowerL (c :: q1) = p) (hp : patOK p = true) : isWsC c = false := by
  have hpe : p = lowerC c :: lowerL q1 := by rw [← hq]; rfl
  subst hpe
  rw [patOK] at hp
  simp only [Bool.and_eq_true] at hp
  have h1 : headNotWsB (lowerC c :: lowerL q1) = true := hp.1.1.1
  rw [headNotWsB, Bool.not_eq_true'] at h1
  exact chunk_not_ws rfl h1

theorem chunk_last_ws {q p : List Char} (hq : lowerL q = p) (hp : patOK p = true)
    {e : Char} {t : List Char} (hr : q.reverse = e :: t) : isWsC e = false := by
  have hpr : p.reverse = lowerC e :: lowerL t := by
    rw [← hq, lowerL, ← List.map_reverse, hr]
    rfl
  rw [patOK] at hp
  simp only [Bool.and_eq_true] at hp
  have h1 : headNotWsB p.reverse = true := hp.1.1.2
  rw [hpr, headNotWsB, Bool.not_eq_true'] at h1
  exact chunk_not_ws rfl h1

/-! ### Preservation through `collapseWs` -/

theorem map_wsToSp_id (q : List Char) (h : ∀ c ∈ q, isWsC c = true → c = ' ') :
    q.map wsToSp = q := by
  induction q with
  | nil => rfl
  | cons c t ih =>
    rw [List.map_cons, ih (fun x hx => h x (List.mem_cons_of_mem _ hx))]
    congr 1
    rw [wsToSp]
    by_cases hw : isWsC c = true
    · rw [if_pos hw, h c (List.mem_cons_self _ _) hw]
    · rw [if_neg hw]

theorem goodP_headNotSp {l : List Char} (h : goodP true l = true) : headNotSp l := by
  cases l with
  | nil => trivial
  | cons x t =>
    intro he
    subst he
    rw [goodP] at h
    simp at h

theorem goodP_chunk : ∀ (q p : List Char) (bp : Bool), lowerL q = p →
    goodP bp p = true → ∀ bq : Bool, (bq = true → headNotSp p) →
    goodP bq q = true := by
  intro q
  induction q with
  | nil => intro p bp _ _ bq _; rfl
  | cons c q1 ih =>
    intro p bp hq hp bq hbq
    have hpe : p = lowerC c :: lowerL q1 := by rw [← hq]; rfl
    subst hpe
    rw [goodP, Bool.and_eq_true] at hp
    rw [goodP, Bool.and_eq_true]
    by_cases hc : c = ' '
    · have hlc : lowerC c = ' ' := by subst hc; decide
      have hbq0 : bq = false := by
        cases bq with
        | false => rfl
        | true => exact absurd hlc (hbq rfl)
      subst hbq0
      refine ⟨by rw [if_pos hc]; rfl, ?_⟩
      have hp2 : goodP true (lowerL q1) = true := by
        have := hp.2
        rwa [show decide (lowerC c = ' ') = true by rw [hlc]; decide] at this
      have := ih (lowerL q1) true rfl hp2 true (fun _ => goodP_headNotSp hp2)
      rwa [show decide (c = ' ') = true by rw [hc]; decide]
    · refine ⟨by rw [if_neg hc], ?_⟩
      have := ih (lowerL q1) (decide (lowerC c = ' ')) rfl hp.2 false
        (fun h => absurd h (by simp))
      rwa [show decide (c = ' ') = false by simp [hc]]

theorem endFlag_cons (b : Bool) (c : Char) (t : List Char) :
    endFlag b (c :: t) = endFlag (decide (c = ' ')) t := by
  cases t with
  | nil => simp [endFlag]
  | cons d t1 =>
    have hz : ∃ z, (d :: t1).getLast? = some z := by
      cases hgl : (d :: t1).getLast? with
      | none => exact absurd hgl (by simp)
      | some z => exact ⟨z, rfl⟩
    obtain ⟨z, hz⟩ := hz
    simp [endFlag, List.getLast?_cons_cons, hz]

theorem sqAux_chunk : ∀ (p : List Char) (b : Bool), goodP b p = true →
    ∀ v, sqAux b (p ++ v) = p ++ sqAux (endFlag b p) v := by
  intro p
  induction p with
  | nil => intro b _ v; simp [endFlag]
  | cons c t ih =>
    intro b hg v
    rw [goodP, Bool.and_eq_true] at hg
    rw [List.cons_append, sqAux]
    by_cases hc : c = ' '
    · have hb : b = false := by
        have := hg.1
        rw [if_pos hc] at this
        simpa using this
      subst hb
      rw [if_pos hc]
      have hg2 : goodP true t = true := by
        have := hg.2
        rwa [show decide (c = ' ') = true by rw [hc]; decide] at this
      rw [ih true hg2 v, endFlag_cons]
      subst hc
      simp
    · rw [if_neg hc]
      have hg2 : goodP false t = true := by
        have := hg.2
        rwa [show decide (c = ' ') = false by simp [hc]] at this
      rw [ih false hg2 v, endFlag_cons]
      rw [show decide (c = ' ') = false by simp [hc]]
      simp

theorem sqAux_prefix (w : List Char) : ∀ (u : List Char) (b : Bool),
    ∃ u2 b2, sqAux b (u ++ w) = u2 ++ sqAux b2 w := by
  intro u
  induction u with
  | nil => intro b; exact ⟨[], b, rfl⟩
  | cons c u1 ih =>
    intro b
    by_cases hc : c = ' '
    · subst hc
      cases b with
      | true =>
        obtain ⟨u2, b2, he⟩ := ih true
        exact ⟨u2, b2, by rw [List.cons_append, sqAux, if_pos rfl]; simpa using he⟩
      | false =>
        obtain ⟨u2, b2, he⟩ := ih true
        refine ⟨' ' :: u2, b2, ?_⟩
        rw [List.cons_append, sqAux, if_pos rfl]
        simp only [List.cons_append]
        rw [← he]
        simp
    · obtain ⟨u2, b2, he⟩ := ih false
      refine ⟨c :: u2, b2, ?_⟩
      rw [List.cons_append, sqAux, if_neg hc, he]
      rfl

theorem occursL_collapseWs {p : List Char} (hp : patOK p = true) {s : List Char}
    (h : occursL s p) : occursL (collapseWs s) p := by
  obtain ⟨u, q, v, rfl, hq⟩ := h
  have hfix : q.map wsToSp = q := map_wsToSp_id q (chunk_facts hq hp).2
  have hmap : (u ++ (q ++ v)).map wsToSp =
      u.map wsToSp ++ (q ++ v.map wsToSp) := by
    rw [List.map_append, List.map_append, hfix]
  rw [collapseWs, hmap]
  obtain ⟨u2, b2, he⟩ := sqAux_prefix (q ++ v.map wsToSp) (u.map wsToSp) false
  have hgood : goodP b2 q = true := by
    apply goodP_chunk q p false hq ?_ b2 (fun _ => patOK_headNotSp hp)
    rw [patOK] at hp
    simp only [Bool.and_eq_true] at hp
    exact hp.2
  rw [sqAux_chunk q b2 hgood (v.map wsToSp)] at he
  exact ⟨u2, q, sqAux (endFlag b2 q) (v.map wsToSp), he, hq⟩

/-! ### Preservation through `dedupComma` -/

theorem dw_app_nil : ∀ (u : List Char), u.dropWhile isWsC = [] →
    ∀ w, (u ++ w).dropWhile isWsC = w.dropWhile isWsC := by
  intro u
  induction u with
  | nil => intro _ w; rfl
  | cons c u1 ih =>
    intro h w
    rw [List.dropWhile_cons] at h
    by_cases hw : isWsC c = true
    · rw [if_pos hw] at h
      rw [List.cons_append, List.dropWhile_cons, if_pos hw]
      exact ih h w
    · rw [if_neg hw] at h
      exact absurd h (by simp)

theorem dw_app_cons : ∀ (u : List Char) (x : Char) (r : List Char),
    u.dropWhile isWsC = x :: r →
    ∀ w, (u ++ w).dropWhile isWsC = x :: (r ++ w) := by
  intro u
  induction u with
  | nil => intro x r h _; exact absurd h (by simp)
  | cons c u1 ih =>
    intro x r h w
    rw [List.dropWhile_cons] at h
    by_cases hw : isWsC c = true
    · rw [if_pos hw] at h
      rw [List.cons_append, List.dropWhile_cons, if_pos hw]
      exact ih x r h w
    · rw [if_neg hw] at h
      injection h with h1 h2
      subst h1
      subst h2
      rw [List.cons_append, List.dropWhile_cons, if_neg hw]

theorem dropWhile_of_headNonWs : ∀ (w : List Char), headNonWs w →
    w.dropWhile isWsC = w := by
  intro w hw
  cases w with
  | nil => rfl
  | cons c w1 =>
    rw [List.dropWhile_cons, if_neg]
    rw [hw]
    simp

theorem dw_pref (u w : List Char) (hw : headNonWs w) :
    ∃ u1, (u ++ w).dropWhile isWsC = u1 ++ w := by
  rcases hdw : u.dropWhile isWsC with _ | ⟨x, r⟩
  · exact ⟨[], by rw [dw_app_nil u hdw w, dropWhile_of_headNonWs w hw]; rfl⟩
  · exact ⟨x :: r, by rw [dw_app_cons u x r hdw w]; rfl⟩

theorem tryWsComma_of_drop_nil {u1 w : List Char} (hd : u1.dropWhile isWsC = [])
    (hw : headHard w) : tryWsComma (u1 ++ w) = none := by
  rw [tryWsComma, dw_app_nil u1 hd w]
  cases w with
  | nil => rfl
  | cons a w1 =>
    rw [dropWhile_of_headNonWs (a :: w1) hw.2]
    simp [hw.1]

theorem tryWsComma_of_drop_cons {u1 : List Char} {x : Char} {r : List Char}
    (hd : u1.dropWhile isWsC = x :: r) (w : List Char) :
    tryWsComma (u1 ++ w) =
      (if x = ',' then some (r ++ w) else none) := by
  rw [tryWsComma, dw_app_cons u1 x r hd w]
  by_cases hx : x = ','
  · subst hx
    rw [if_pos rfl]
    simp
  · rw [if_neg hx]
    simp [hx]

theorem dropWhile_len_le (p : Char → Bool) :
    ∀ l : List Char, (l.dropWhile p).length ≤ l.length := by
  intro l
  induction l with
  | nil => exact Nat.le_refl _
  | cons c t ih =>
    rw [List.dropWhile_cons]
    by_cases h : p c = true
    · rw [if_pos h]
      exact Nat.le_trans ih (by rw [List.length_cons]; exact Nat.le_succ _)
    · rw [if_neg h]

theorem dcGo_copies : ∀ (p : List Char), (∀ c ∈ p, c ≠ ',') →
    ∀ (n : Nat) (v : List Char), (p ++ v).length ≤ n →
      dcGo n (p ++ v) = p ++ dcGo (n - p.length) v := by
  intro p
  induction p with
  | nil => intro _ n v _; simp
  | cons c t ih =>
    intro hnc n v hn
    match n, hn with
    | m + 1, hn =>
      rw [List.cons_append, dcGo, if_neg (hnc c (List.mem_cons_self _ _))]
      rw [ih (fun x hx => hnc x (List.mem_cons_of_mem _ hx)) m v (by
        simp only [List.cons_append, List.length_cons, List.length_append] at hn
        simp only [List.length_append]
        omega)]
      have e : m + 1 - (c :: t).length = m - t.length := by
        simp only [List.length_cons]
        omega
      rw [e, List.cons_append]

theorem dcGo_prefix : ∀ (n : Nat) (u w : List Char), headHard w →
    (u ++ w).length ≤ n →
    ∃ u2 m, dcGo n (u ++ w) = u2 ++ dcGo m w ∧ w.length ≤ m := by
  intro n
  induction n with
  | zero =>
    intro u w _ hlen
    simp only [List.length_append, Nat.le_zero, Nat.add_eq_zero] at hlen
    have hu : u = [] := List.length_eq_zero.mp hlen.1
    have hw0 : w = [] := List.length_eq_zero.mp hlen.2
    subst hu
    subst hw0
    exact ⟨[], 0, rfl, by simp⟩
  | succ m ihn =>
    intro u w hw hlen
    cases u with
    | nil => exact ⟨[], m + 1, rfl, by simpa using hlen⟩
    | cons c u1 =>
      have hlen1 : (u1 ++ w).length ≤ m := by
        simp only [List.cons_append, List.length_cons] at hlen
        omega
      by_cases hc : c = ','
      · subst hc
        rw [List.cons_append, dcGo, if_pos rfl]
        rcases hdw : (u1.dropWhile isWsC) with _ | ⟨x, rest⟩
        · rw [tryWsComma_of_drop_nil hdw hw]
          obtain ⟨u2, m2, he, hm2⟩ := ihn u1 w hw hlen1
          exact ⟨',' :: u2, m2, by rw [he]; rfl, hm2⟩
        · by_cases hx : x = ','
          · subst hx
            rw [tryWsComma_of_drop_cons hdw w, if_pos rfl]
            have hrest : (rest ++ w).length ≤ m := by
              have hle : (u1.dropWhile isWsC).length ≤ u1.length :=
                dropWhile_len_le isWsC u1
              rw [hdw] at hle
              simp only [List.length_cons] at hle
              simp only [List.length_append] at hlen1 ⊢
              omega
            obtain ⟨u2, m2, he, hm2⟩ := ihn rest w hw hrest
            refine ⟨',' :: u2, m2, ?_, hm2⟩
            show ',' :: dcGo m (rest ++ w) = (',' :: u2) ++ dcGo m2 w
            rw [he]
            rfl
          · rw [tryWsComma_of_drop_cons hdw w, if_neg hx]
            obtain ⟨u2, m2, he, hm2⟩ := ihn u1 w hw hlen1
            refine ⟨',' :: u2, m2, ?_, hm2⟩
            show ',' :: dcGo m (u1 ++ w) = (',' :: u2) ++ dcGo m2 w
            rw [he]
            rfl
      · rw [List.cons_append, dcGo, if_neg hc]
        obtain ⟨u2, m2, he, hm2⟩ := ihn u1 w hw hlen1
        refine ⟨c :: u2, m2, ?_, hm2⟩
        show c :: dcGo m (u1 ++ w) = (c :: u2) ++ dcGo m2 w
        rw [he]
        rfl

theorem occursL_dedupComma {p : List Char} (hp : patOK p = true) {s : List Char}
    (h : occursL s p) : occursL (dedupComma s) p := by
  obtain ⟨u, q, v, rfl, hq⟩ := h
  rcases hq0 : q with _ | ⟨c, q1⟩
  · subst hq0
    exact absurd hq.symm (by intro he; exact patOK_ne_nil hp (by rw [he]; rfl))
  subst hq0
  have hhH : headHard ((c :: q1) ++ v) := by
    rw [List.cons_append]
    exact ⟨(chunk_facts hq hp).1 c (List.mem_cons_self _ _), chunk_head_ws hq hp⟩
  rw [dedupComma]
  obtain ⟨u2, m, he, hm⟩ :=
    dcGo_prefix (u ++ ((c :: q1) ++ v)).length u ((c :: q1) ++ v) hhH (le_refl _)
  rw [dcGo_copies (c :: q1) ((chunk_facts hq hp).1) m v hm] at he
  exact ⟨u2, c :: q1, dcGo (m - (c :: q1).length) v, he, hq⟩

/-! ### Preservation through `stripWs` -/

theorem occursL_stripWs {p : List Char} (hp : patOK p = true) {s : List Char}
    (h : occursL s p) : occursL (stripWs s) p := by
  obtain ⟨u, q, v, rfl, hq⟩ := h
  rcases hq0 : q with _ | ⟨c, q1⟩
  · subst hq0
    exact absurd hq.symm (by intro he; exact patOK_ne_nil hp (by rw [he]; rfl))
  subst hq0
  rw [stripWs]
  obtain ⟨u1, he1⟩ := dw_pref u ((c :: q1) ++ v)
    (by rw [List.cons_append]; exact chunk_head_ws hq hp)
  rw [he1, dropTrail]
  have hrev : (u1 ++ ((c :: q1) ++ v)).reverse =
      v.reverse ++ ((c :: q1).reverse ++ u1.reverse) := by
    simp [List.reverse_append]
  rw [hrev]
  have hex : ∃ e t, (c :: q1).reverse = e :: t := by
    rcases hrr : (c :: q1).reverse with _ | ⟨e, t⟩
    · exact absurd hrr (by simp)
    · exact ⟨e, t, rfl⟩
  obtain ⟨e, t, hqr⟩ := hex
  obtain ⟨v1, he2⟩ := dw_pref v.reverse ((c :: q1).reverse ++ u1.reverse)
    (by rw [hqr, List.cons_append]; exact chunk_last_ws hq hp hqr)
  rw [he2]
  refine ⟨u1, c :: q1, v1.reverse, ?_, hq⟩
  rw [List.reverse_append, List.reverse_append, List.reverse_reverse,
    List.reverse_reverse]
  simp [List.append_assoc]

/-! ### Token presence after the city and country stages -/

theorem cityCountry_tokens (x : List Char) :
    occursL (cityCountry x) ("malaysia".toList) ∧
    (occursL (cityCountry x) ("kuala lumpur".toList) ∨
     occursL (cityCountry x) ("kl".toList)) := by
  rw [cityCountry]
  have hsplitM : (", Malaysia".toList : List Char) =
      ", ".toList ++ "Malaysia".toList := by decide
  have hsplitK : (", Kuala Lumpur".toList : List Char) =
      ", ".toList ++ "Kuala Lumpur".toList := by decide
  by_cases h1 : (containsSub (lowerL x) ("kuala lumpur".toList) ||
      containsSub (lowerL x) ("kl".toList)) = true
  · rw [if_pos h1]
    have hkl : occursL x ("kuala lumpur".toList) ∨ occursL x ("kl".toList) := by
      rcases Bool.or_eq_true _ _ ▸ h1 with h | h
      · exact Or.inl ((occursL_iff _ _).mp h)
      · exact Or.inr ((occursL_iff _ _).mp h)
    by_cases h2 : containsSub (lowerL x) ("malaysia".toList) = true
    · rw [if_pos h2]
      exact ⟨(occursL_iff _ _).mp h2, hkl⟩
    · rw [if_neg h2]
      refine ⟨⟨x ++ ", ".toList, "Malaysia".toList, [],
        by rw [hsplitM]; simp, by decide⟩, ?_⟩
      exact hkl.imp (occursL_append _ _ _) (occursL_append _ _ _)
  · rw [if_neg h1]
    have hkl : occursL (x ++ ", Kuala Lumpur".toList) ("kuala lumpur".toList) ∨
        occursL (x ++ ", Kuala Lumpur".toList) ("kl".toList) :=
      Or.inl ⟨x ++ ", ".toList, "Kuala Lumpur".toList, [],
        by rw [hsplitK]; simp, by decide⟩
    by_cases h2 : containsSub (lowerL (x ++ ", Kuala Lumpur".toList))
        ("malaysia".toList) = true
    · rw [if_pos h2]
      exact ⟨(occursL_iff _ _).mp h2, hkl⟩
    · rw [if_neg h2]
      refine ⟨⟨(x ++ ", Kuala Lumpur".toList) ++ ", ".toList, "Malaysia".toList, [],
        by rw [hsplitM]; simp, by decide⟩, ?_⟩
      exact hkl.imp (occursL_append _ _ _) (occursL_append _ _ _)

/-- Claim C7 (amended): for every nonempty input the cleaned address
contains the country token `malaysia` and a city token (`kuala lumpur` or
`kl`), case-insensitively; the bounded phone pattern `03-12345678` and
email addresses are removed, while the international pattern
`+60 3-12345678` loses only its digit tail, leaving the remnant `+60 3-`. -/
theorem claim_C7 :
    (∀ s : List Char, s.isEmpty = false →
      containsSub (lowerL (cleanAddressL s)) ("malaysia".toList) = true ∧
      (containsSub (lowerL (cleanAddressL s)) ("kuala lumpur".toList) ||
       containsSub (lowerL (cleanAddressL s)) ("kl".toList)) = true) ∧
    cleanAddress "Jalan Ampang 03-12345678 Kuala Lumpur" =
      "Jalan Ampang Kuala Lumpur, Malaysia" ∧
    cleanAddress "a info@mcdonalds.com.my Jalan Bukit Bintang" =
      "a Jalan Bukit Bintang, Kuala Lumpur, Malaysia" ∧
    cleanAddress "Jalan Ampang +60 3-12345678, Kuala Lumpur" =
      "Jalan Ampang +60 3-, Kuala Lumpur, Malaysia" := by
  refine ⟨?_, by decide, by decide, by decide⟩
  intro s hs
  rw [cleanAddressL, if_neg (by rw [hs]; simp)]
  have pat1 : patOK ("malaysia".toList) = true := by decide
  have pat2 : patOK ("kuala lumpur".toList) = true := by decide
  have pat3 : patOK ("kl".toList) = true := by decide
  have h := cityCountry_tokens (cleanCore s)
  constructor
  · exact (occursL_iff _ _).mpr (occursL_stripWs pat1
      (occursL_dedupComma pat1 (occursL_collapseWs pat1 h.1)))
  · rcases h.2 with hk | hk
    · have hb := (occursL_iff _ _).mpr (occursL_stripWs pat2
        (occursL_dedupComma pat2 (occursL_collapseWs pat2 hk)))
      rw [hb]
      simp
    · have hb := (occursL_iff _ _).mpr (occursL_stripWs pat3
        (occursL_dedupComma pat3 (occursL_collapseWs pat3 hk)))
      rw [hb]
      simp

/-- Counterexample to C7 as stated: the empty address is returned empty
with no city or country token; the phone pattern `03-12345678` is not
removed when a letter follows it (no word boundary); the international
pattern leaves the remnant `+60 3-` in the output. -/
theorem claim_C7_counterexample :
    cleanAddress "" = "" ∧
    containsSub (lowerL (cleanAddressL [])) ("malaysia".toList) = false ∧
    containsSub (lowerL (cleanAddressL ("03-12345678a".toList)))
      ("03-12345678".toList) = true ∧
    containsSub (lowerL (cleanAddressL
        ("Jalan Ampang +60 3-12345678, Kuala Lumpur".toList)))
      ("+60 3-".toList) = true := by
  refine ⟨by decide, by decide, by decide, by decide⟩

/-- Witness for the universal part of C7 at a concrete nonempty address. -/
theorem claim_C7_witness :
    containsSub (lowerL (cleanAddressL ("Lot 5".toList))) ("malaysia".toList) = true ∧
    (containsSub (lowerL (cleanAddressL ("Lot 5".toList))) ("kuala lumpur".toList) ||
     containsSub (lowerL (cleanAddressL ("Lot 5".toList))) ("kl".toList)) = true :=
  claim_C7.1 ("Lot 5".toList) (by decide)

end MCD
